import Mathlib

/-!
The `/metrics` handler of paas-log-cache-adapter: a shallow embedding of
`src/handlers.go` and the properties of its specification.

* Go strings are byte sequences; a byte is a `Nat` below 256.
* `uuid.Parse` is the parser of `github.com/google/uuid` on which
  `isTenantResourceSourceID` rests.
* `handleMetrics` starts goroutines; a request is a transition system in which
  a scheduler picks the goroutine that steps next, and the properties hold for
  every schedule.
* Package `pkg/prometheus` is a parameter of the handler; its model from the
  specification is used where a property is about the collection itself.
-/

namespace LogCacheAdapter

/-! ## Go strings as bytes -/

/-- UTF-8 encoding of one character, as Go stores it in a `string`. -/
def utf8Bytes (c : Char) : List Nat :=
  let n := c.toNat
  if n < 0x80 then [n]
  else if n < 0x800 then [0xC0 + n / 0x40, 0x80 + n % 0x40]
  else if n < 0x10000 then [0xE0 + n / 0x1000, 0x80 + n / 0x40 % 0x40, 0x80 + n % 0x40]
  else [0xF0 + n / 0x40000, 0x80 + n / 0x1000 % 0x40, 0x80 + n / 0x40 % 0x40, 0x80 + n % 0x40]

/-- The bytes of a Go `string` holding the text `s`. -/
def goBytes (s : String) : List Nat :=
  s.data.flatMap utf8Bytes

/-! ## `github.com/google/uuid` -/

namespace uuid

/-- Table `xvalues`: the value of a hexadecimal digit byte, 255 for any other byte. -/
def xvalue (b : Nat) : Nat :=
  if 48 ≤ b ∧ b ≤ 57 then b - 48
  else if 97 ≤ b ∧ b ≤ 102 then b - 87
  else if 65 ≤ b ∧ b ≤ 70 then b - 55
  else 255

/-- Function `xtob`: two hex digit bytes to one byte, `none` when either is not a hex digit. -/
def xtob (x1 x2 : Nat) : Option Nat :=
  let b1 := xvalue x1
  let b2 := xvalue x2
  if b1 ≠ 255 ∧ b2 ≠ 255 then some (((b1 * 16) % 256) ||| b2) else none

/-- ASCII lower-casing of a byte (`strings.ToLower` on the nine-byte prefix: it can only
equal `urn:uuid:` when every byte of the prefix is ASCII). -/
def lowerByte (b : Nat) : Nat :=
  if 65 ≤ b ∧ b ≤ 90 then b + 32 else b

/-- The bytes of `urn:uuid:`. -/
def urnScheme : List Nat := [117, 114, 110, 58, 117, 117, 105, 100, 58]

/-- Offsets of the sixteen hex pairs in `xxxxxxxx-xxxx-xxxx-xxxx-xxxxxxxxxxxx`. -/
def pairOffsets : List Nat :=
  [0, 2, 4, 6, 9, 11, 14, 16, 19, 21, 24, 26, 28, 30, 32, 34]

/-- Byte `s[i]`. -/
def byteAt (s : List Nat) (i : Nat) : Nat := s.getD i 0

/-- The tail of `Parse`, run once `s` is at least 36 bytes long: hyphens at offsets
8, 13, 18 and 23, then the sixteen hex pairs. -/
def parseHyphenated (s : List Nat) : Option (List Nat) :=
  if byteAt s 8 ≠ 45 ∨ byteAt s 13 ≠ 45 ∨ byteAt s 18 ≠ 45 ∨ byteAt s 23 ≠ 45 then none
  else pairOffsets.mapM (fun x => xtob (byteAt s x) (byteAt s (x + 1)))

/-- Function `uuid.Parse` (google/uuid v1.1): a switch on `len(s)`.
36: the hyphenated form; 45: `urn:uuid:` prefix, then the hyphenated form;
38: the first byte is dropped (`s = s[1:]`), then the hyphenated form;
32: sixteen raw hex pairs; any other length is an error. -/
def Parse (s : List Nat) : Option (List Nat) :=
  if s.length = 36 then parseHyphenated s
  else if s.length = 36 + 9 then
    if (s.take 9).map lowerByte ≠ urnScheme then none
    else parseHyphenated (s.drop 9)
  else if s.length = 36 + 2 then parseHyphenated (s.drop 1)
  else if s.length = 32 then
    (List.range 16).mapM (fun i => xtob (byteAt s (i * 2)) (byteAt s (i * 2 + 1)))
  else none

end uuid

/-- Function `isTenantResourceSourceID`: `uuid.Parse(s)` returned no error. -/
def isTenantResourceSourceID (s : String) : Bool :=
  (uuid.Parse (goBytes s)).isSome

/-! ## The UUID text forms, as the specification words them -/

/-- A hexadecimal digit byte: `0`-`9`, `a`-`f` or `A`-`F`. -/
def isHexDigit (b : Nat) : Bool :=
  (decide (48 ≤ b) && decide (b ≤ 57)) || (decide (97 ≤ b) && decide (b ≤ 102)) ||
    (decide (65 ≤ b) && decide (b ≤ 70))

/-- The 36 bytes of `s` from offset `off` on are 32 hexadecimal digits in 8-4-4-4-12 groups
separated by hyphens. -/
def hyphenatedAt (s : List Nat) (off : Nat) : Bool :=
  (List.range 36).all fun i =>
    if i = 8 ∨ i = 13 ∨ i = 18 ∨ i = 23 then uuid.byteAt s (off + i) == 45
    else isHexDigit (uuid.byteAt s (off + i))

/-- The standard UUID grammar of the specification: exactly 36 bytes, 32 hexadecimal digits
in 8-4-4-4-12 hyphenated groups. -/
def isHyphenatedUUID (s : List Nat) : Bool :=
  s.length == 36 && hyphenatedAt s 0

/-- The URN form: `urn:uuid:` in any letter case, then the hyphenated form. -/
def isUrnUUID (s : List Nat) : Bool :=
  s.length == 45 && ((s.take 9).map uuid.lowerByte == uuid.urnScheme) && hyphenatedAt s 9

/-- The 38-byte form: one enclosing byte on each side of the hyphenated form. -/
def isEnclosedUUID (s : List Nat) : Bool :=
  s.length == 38 && hyphenatedAt s 1

/-- The raw form: exactly 32 hexadecimal digits. -/
def isRawHexUUID (s : List Nat) : Bool :=
  s.length == 32 && (List.range 32).all fun i => isHexDigit (uuid.byteAt s i)

/-! ## net/http: headers, requests and the response writer -/

/-- Type `http.Header`: a Go map from header name to its values; `none` when the key is
absent. The keys `handlers.go` passes (`Authorization`, `Content-Type`) are already in
canonical MIME form, on which `CanonicalMIMEHeaderKey` is the identity. -/
abbrev Header := String → Option (List String)

/-- Method `Header.Get`: the first value under the key, the empty string when there is none. -/
def Header.Get (h : Header) (key : String) : String :=
  match h key with
  | some (v :: _) => v
  | _ => ""

/-- Method `Header.Set`: the key is bound to the single value, whatever it held before. -/
def Header.Set (h : Header) (key value : String) : Header :=
  fun k => if k = key then some [value] else h k

/-- Method `Header.Add`: the value is appended to those under the key. -/
def Header.Add (h : Header) (key value : String) : Header :=
  fun k => if k = key then some ((h k).getD [] ++ [value]) else h k

/-- Type `http.Request`, as far as the adapter touches it. -/
structure Request where
  method : String
  url : String
  header : Header

/-- Type `myClient`: the HTTP client handed to the log-cache client. -/
structure myClient where
  token : String

/-- Method `myClient.Do`: sets `Authorization` on the request to the stored token and
passes the request to `http.Client.Do`, here `roundTrip`. -/
def myClient.Do {R : Type} (mC : myClient) (roundTrip : Request → R) (req : Request) : R :=
  roundTrip { req with header := req.header.Set "Authorization" mC.token }

/-- The calls a handler makes on its `http.ResponseWriter`; `metricsWrite c` is
`metrics.Write(w)` on a collection holding `c`. -/
inductive RespCall (C : Type) where
  | headerAdd (key value : String)
  | writeHeader (code : Nat)
  | write (body : String)
  | metricsWrite (c : C)
  deriving DecidableEq

/-- The status code of the response: that of the first `WriteHeader`, unless a body
write came first or there was none, which makes it 200. -/
def respStatus {C : Type} : List (RespCall C) → Nat
  | [] => 200
  | .writeHeader code :: _ => code
  | .write _ :: _ => 200
  | .metricsWrite _ :: _ => 200
  | .headerAdd _ _ :: rest => respStatus rest

/-- The body of the response: what the body writes wrote, in order. -/
def respBody {C : Type} (render : C → String) : List (RespCall C) → String
  | [] => ""
  | .write b :: rest => b ++ respBody render rest
  | .metricsWrite c :: rest => render c ++ respBody render rest
  | _ :: rest => respBody render rest

/-- The response headers set before the status line went out. -/
def respHeader {C : Type} : List (RespCall C) → Header → Header
  | .headerAdd k v :: rest, h => respHeader rest (h.Add k v)
  | _, h => h

/-! ## The handler -/

/-- Package `pkg/prometheus` as `handleMetrics` uses it: `B` is an envelope batch
(`[]*loggregator_v2.Envelope`), `F` the converted metric families, `C` the content of a
`MetricsCollection`. `Append` returns the new content and whether its error is non-nil. -/
structure Prometheus (B F C : Type) where
  CreateMetricsCollection : C
  Convert : B → F
  Append : C → F → C × Bool
  Write : C → String

/-- What one request meets: the incoming request, the requests the log-cache client
builds for `Meta` and `Read`, what the upstream answers to a request as sent (`none` is an
error; for `Meta` the source identifiers in the iteration order of the returned map), and
`runtime.NumCPU()`, which is at least 1 on any machine. -/
structure Upstream (B : Type) where
  r : Request
  metaRequest : Request
  readRequest : String → Request
  metaRoundTrip : Request → Option (List String)
  readRoundTrip : Request → Option B
  numCPU : Nat

/-- Lines 40-43: the client carries the incoming `Authorization` value. -/
def Upstream.client {B : Type} (u : Upstream B) : myClient :=
  { token := u.r.header.Get "Authorization" }

/-- Call `client.Meta(ctx)`, sent through `myClient.Do`. -/
def Upstream.Meta {B : Type} (u : Upstream B) : Option (List String) :=
  u.client.Do u.metaRoundTrip u.metaRequest

/-- Call `client.Read(ctx, sourceID, now - 10m, COUNTER, GAUGE)`, sent through `myClient.Do`. -/
def Upstream.Read {B : Type} (u : Upstream B) (sourceID : String) : Option B :=
  u.client.Do u.readRoundTrip (u.readRequest sourceID)

/-- Where the handler goroutine stands: before `Meta`; in the loop sending the remaining
identifiers on `sourceIDs`; at `logGetters.Wait()`; at `close(envelopeChan)`; at
`appender.Wait()`; at `metrics.Write(w)`; returned. -/
inductive MainPC where
  | start
  | feed (rest : List String)
  | waitGetters
  | closeEnv
  | waitAppender
  | write
  | done
  deriving DecidableEq

/-- Where a fetcher goroutine (lines 65-94) stands: receiving from `sourceIDs`; holding a
received identifier; holding a batch to send on `envelopeChan`; exited. -/
inductive FetcherPC (B : Type) where
  | recv
  | got (sourceID : String)
  | send (envelopes : B)
  | done
  deriving DecidableEq

/-- Where an appender goroutine (lines 99-116) stands: receiving from `envelopeChan`;
holding a batch; holding the result of `Append` not yet stored in `err`; at the test
`err != nil`; between `WriteHeader` and `Write` of `s.error`; exited. -/
inductive AppenderPC (B : Type) where
  | recv
  | got (envelopes : B)
  | assign (e : Bool)
  | check
  | errBody
  | done
  deriving DecidableEq

/-- What happens during a request, in order. -/
inductive Event (B C : Type) where
  | resp (call : RespCall C)
  | metaCall (ok : Bool)
  | readCall (sourceID : String) (ok : Bool)
  | send (envelopes : B)
  | appendCall (envelopes : B) (err : Bool)
  | closeSourceIDs
  | closeEnvelopeChan
  deriving DecidableEq

/-- The state of one request: the goroutines, the two channels, the collection, the
variable `err` the appenders share, and the events so far. `panicked` records a send on a
closed channel. -/
structure State (B C : Type) where
  main : MainPC
  sourceIDsClosed : Bool
  logGetters : List (FetcherPC B)
  envelopeChan : List B
  envelopeChanClosed : Bool
  appender : List (AppenderPC B)
  metrics : C
  err : Bool
  panicked : Bool
  trace : List (Event B C)

/-- The goroutine that takes the next step. -/
inductive Action where
  | main
  | fetcher (i : Nat)
  | appender (j : Nat)
  deriving DecidableEq

/-- A fetcher has exited. -/
def FetcherPC.isDone {B : Type} : FetcherPC B → Bool
  | .done => true
  | _ => false

/-- An appender has exited. -/
def AppenderPC.isDone {B : Type} : AppenderPC B → Bool
  | .done => true
  | _ => false

/-- Message of the 500 response to a failed `Meta`. -/
def metaErrorMessage : String := "Cannot connect to log-cache"

/-- Message of the 500 response to a failed `Append`. -/
def appendErrorMessage : String := "Error converting log-cache metrics to prometheus format"

/-- The request as it arrives: nothing started, nothing written. -/
def State.init {B F C : Type} (P : Prometheus B F C) : State B C :=
  { main := .start, sourceIDsClosed := false, logGetters := [], envelopeChan := [],
    envelopeChanClosed := false, appender := [], metrics := P.CreateMetricsCollection,
    err := false, panicked := false, trace := [] }

/-- One step of the handler goroutine. Lines 38-61 with the two spawning loops are one
step; it is blocked (`none`) while an identifier waits for a receiver and at a `Wait`
whose goroutines have not all exited. -/
def stepMain {B F C : Type} (P : Prometheus B F C) (u : Upstream B) (s : State B C) :
    Option (State B C) :=
  match s.main with
  | .start =>
    match u.Meta with
    | none =>
      some { s with
        main := .done
        trace := s.trace ++ [.resp (.headerAdd "Content-Type" "text/plain"), .metaCall false,
          .resp (.writeHeader 500), .resp (.write metaErrorMessage)] }
    | some ids =>
      some { s with
        main := .feed ids
        logGetters := List.replicate 10 .recv
        appender := List.replicate u.numCPU .recv
        metrics := P.CreateMetricsCollection
        trace := s.trace ++ [.resp (.headerAdd "Content-Type" "text/plain"), .metaCall true] }
  | .feed [] =>
    some { s with main := .waitGetters, sourceIDsClosed := true,
                  trace := s.trace ++ [.closeSourceIDs] }
  | .feed (_ :: _) => none
  | .waitGetters =>
    if s.logGetters.all FetcherPC.isDone then some { s with main := .closeEnv } else none
  | .closeEnv =>
    some { s with main := .waitAppender, envelopeChanClosed := true,
                  trace := s.trace ++ [.closeEnvelopeChan] }
  | .waitAppender =>
    if s.appender.all AppenderPC.isDone then some { s with main := .write } else none
  | .write =>
    some { s with main := .done, trace := s.trace ++ [.resp (.metricsWrite s.metrics)] }
  | .done => none

/-- One step of fetcher `i`: receive an identifier from the handler (or see `sourceIDs`
closed and exit); drop an ineligible identifier, else call `Read` and on error go back to
receiving; send the batch on `envelopeChan`, of capacity 10. -/
def stepFetcher {B C : Type} (u : Upstream B) (s : State B C) (i : Nat) :
    Option (State B C) :=
  match s.logGetters[i]? with
  | none => none
  | some .recv =>
    if s.sourceIDsClosed then some { s with logGetters := s.logGetters.set i .done }
    else
      match s.main with
      | .feed (sourceID :: rest) =>
        some { s with main := .feed rest, logGetters := s.logGetters.set i (.got sourceID) }
      | _ => none
  | some (.got sourceID) =>
    if isTenantResourceSourceID sourceID then
      match u.Read sourceID with
      | none =>
        some { s with logGetters := s.logGetters.set i .recv,
                      trace := s.trace ++ [.readCall sourceID false] }
      | some envelopes =>
        some { s with logGetters := s.logGetters.set i (.send envelopes),
                      trace := s.trace ++ [.readCall sourceID true] }
    else some { s with logGetters := s.logGetters.set i .recv }
  | some (.send envelopes) =>
    if s.envelopeChanClosed then
      some { s with logGetters := s.logGetters.set i .done, panicked := true }
    else if s.envelopeChan.length < 10 then
      some { s with logGetters := s.logGetters.set i .recv,
                    envelopeChan := s.envelopeChan ++ [envelopes],
                    trace := s.trace ++ [.send envelopes] }
    else none
  | some .done => none

/-- One step of appender `j`: receive a batch (or see `envelopeChan` closed and drained
and exit); convert and append it; store the result in the shared `err`; test `err`; on an
error write the 500 header, then the message. -/
def stepAppender {B F C : Type} (P : Prometheus B F C) (s : State B C) (j : Nat) :
    Option (State B C) :=
  match s.appender[j]? with
  | none => none
  | some .recv =>
    match s.envelopeChan with
    | envelopes :: rest =>
      some { s with envelopeChan := rest, appender := s.appender.set j (.got envelopes) }
    | [] =>
      if s.envelopeChanClosed then some { s with appender := s.appender.set j .done }
      else none
  | some (.got envelopes) =>
    let res := P.Append s.metrics (P.Convert envelopes)
    some { s with metrics := res.1, appender := s.appender.set j (.assign res.2),
                  trace := s.trace ++ [.appendCall envelopes res.2] }
  | some (.assign e) =>
    some { s with err := e, appender := s.appender.set j .check }
  | some .check =>
    if s.err then
      some { s with appender := s.appender.set j .errBody,
                    trace := s.trace ++ [.resp (.writeHeader 500)] }
    else some { s with appender := s.appender.set j .recv }
  | some .errBody =>
    some { s with appender := s.appender.set j .recv,
                  trace := s.trace ++ [.resp (.write appendErrorMessage)] }
  | some .done => none

/-- One step of the goroutine the scheduler picks; `none` when it is blocked or gone. -/
def step {B F C : Type} (P : Prometheus B F C) (u : Upstream B) (s : State B C) :
    Action → Option (State B C)
  | .main => stepMain P u s
  | .fetcher i => stepFetcher u s i
  | .appender j => stepAppender P s j

/-- The state after a schedule, a sequence of scheduler picks; `none` when a pick was of a
blocked goroutine. -/
def run {B F C : Type} (P : Prometheus B F C) (u : Upstream B) :
    State B C → List Action → Option (State B C)
  | s, [] => some s
  | s, a :: rest =>
    match step P u s a with
    | none => none
    | some t => run P u t rest

/-- Function `handleMetrics`: the states a request can be in, under any scheduling of its
goroutines. -/
def handleMetrics {B F C : Type} (P : Prometheus B F C) (u : Upstream B)
    (schedule : List Action) : Option (State B C) :=
  run P u (State.init P) schedule

/-- The calls made on the response writer, in order. -/
def respCalls {B C : Type} : List (Event B C) → List (RespCall C)
  | [] => []
  | .resp c :: rest => c :: respCalls rest
  | _ :: rest => respCalls rest

/-- The identifiers `Read` was called on, in order. -/
def readCalls {B C : Type} : List (Event B C) → List String
  | [] => []
  | .readCall sourceID _ :: rest => sourceID :: readCalls rest
  | _ :: rest => readCalls rest

/-- The batches converted and appended, in order. -/
def appendCalls {B C : Type} : List (Event B C) → List B
  | [] => []
  | .appendCall envelopes _ :: rest => envelopes :: appendCalls rest
  | _ :: rest => appendCalls rest

/-- Some `Append` call returned an error. -/
def appendFailed {B C : Type} : List (Event B C) → Bool
  | [] => false
  | .appendCall _ err :: rest => err || appendFailed rest
  | _ :: rest => appendFailed rest

/-! ## Invariants of a request -/

/-- How far the handler goroutine is, as a number. -/
def MainPC.phase : MainPC → Nat
  | .start => 0
  | .feed _ => 1
  | .waitGetters => 2
  | .closeEnv => 3
  | .waitAppender => 4
  | .write => 5
  | .done => 6

/-- The identifiers the handler goroutine has still to send. -/
def MainPC.rest : MainPC → List String
  | .feed rest => rest
  | _ => []

/-- The control invariant of a request whose `Meta` call succeeded: the channels are
closed and the goroutines have exited in step with the handler goroutine. -/
structure Control {B C : Type} (u : Upstream B) (s : State B C) : Prop where
  phase_pos : 1 ≤ s.main.phase
  getters_len : s.logGetters.length = 10
  appender_len : s.appender.length = u.numCPU
  src_closed : s.sourceIDsClosed = true ↔ 2 ≤ s.main.phase
  env_closed : s.envelopeChanClosed = true ↔ 4 ≤ s.main.phase
  getters_done : 3 ≤ s.main.phase → ∀ f ∈ s.logGetters, f = FetcherPC.done
  appender_done : 5 ≤ s.main.phase → ∀ a ∈ s.appender, a = AppenderPC.done
  getter_exit : FetcherPC.done ∈ s.logGetters → 2 ≤ s.main.phase
  appender_exit : AppenderPC.done ∈ s.appender → 4 ≤ s.main.phase ∧ s.envelopeChan = []
  chan_cap : s.envelopeChan.length ≤ 10
  no_panic : s.panicked = false

/-- The discovered identifiers that pass the source filter. -/
def eligible (ids : List String) : List String :=
  ids.filter isTenantResourceSourceID

/-- The batches the upstream returns for the eligible identifiers among `ids`, one per
successful `Read`. -/
def readable {B : Type} (u : Upstream B) (ids : List String) : List B :=
  (eligible ids).filterMap u.Read

/-- The collection after converting and appending the batches in the given order. -/
def appended {B F C : Type} (P : Prometheus B F C) (batches : List B) : C :=
  batches.foldl (fun c b => (P.Append c (P.Convert b)).1) P.CreateMetricsCollection

/-- The `Read` call a fetcher still owes: the eligible identifier it holds. -/
def FetcherPC.owedIDs {B : Type} : FetcherPC B → Multiset String
  | .got sourceID => ((eligible [sourceID] : List String) : Multiset String)
  | _ => 0

/-- The batch a fetcher still owes the channel: the one it holds, or the one its `Read`
is going to return. -/
def FetcherPC.owedEnvs {B : Type} (u : Upstream B) : FetcherPC B → Multiset B
  | .got sourceID => ((readable u [sourceID] : List B) : Multiset B)
  | .send envelopes => {envelopes}
  | _ => 0

/-- The batch an appender still owes the collection. -/
def AppenderPC.owedEnvs {B : Type} : AppenderPC B → Multiset B
  | .got envelopes => {envelopes}
  | _ => 0

/-- The accounting invariant of a request whose `Meta` call returned `ids`: every eligible
identifier is read, held by a fetcher or still to be sent; every batch of a successful
read is appended, held by a goroutine, in the channel or still to be read; the collection
holds exactly the appended batches. -/
structure Ledger {B F C : Type} (P : Prometheus B F C) (u : Upstream B) (ids : List String)
    (s : State B C) : Prop where
  ids_eq : (readCalls s.trace : Multiset String) + (s.logGetters.map FetcherPC.owedIDs).sum +
      (eligible s.main.rest : Multiset String) = (eligible ids : Multiset String)
  envs_eq : (appendCalls s.trace : Multiset B) + (s.appender.map AppenderPC.owedEnvs).sum +
      (s.envelopeChan : Multiset B) + (s.logGetters.map (FetcherPC.owedEnvs u)).sum +
      (readable u s.main.rest : Multiset B) = (readable u ids : Multiset B)
  metrics_eq : s.metrics = appended P (appendCalls s.trace)

/-- The response invariant of a request whose `Meta` call succeeded: the calls on the
response writer are the `Content-Type` header, then the writes of `s.error` by appenders,
then, once the handler has returned, `metrics.Write`; and an error was written, or is about
to be, only if some `Append` call returned one. -/
structure Responded {B C : Type} (s : State B C) : Prop where
  err_src : s.err = true → appendFailed s.trace = true
  assign_src : AppenderPC.assign true ∈ s.appender → appendFailed s.trace = true
  body_src : AppenderPC.errBody ∈ s.appender → appendFailed s.trace = true
  shape : ∃ mid : List (RespCall C),
    (∀ c ∈ mid, c = RespCall.writeHeader 500 ∨ c = RespCall.write appendErrorMessage) ∧
    (mid ≠ [] → appendFailed s.trace = true) ∧
    respCalls s.trace = RespCall.headerAdd "Content-Type" "text/plain" :: mid ++
      (if s.main.phase = 6 then [RespCall.metricsWrite s.metrics] else [])
  last : s.main.phase = 6 → ∃ tr, s.trace = tr ++ [Event.resp (RespCall.metricsWrite s.metrics)]

/-- The invariant of a request whose `Meta` call returned `ids`. -/
structure Invariant {B F C : Type} (P : Prometheus B F C) (u : Upstream B) (ids : List String)
    (s : State B C) : Prop where
  control : Control u s
  ledger : Ledger P u ids s
  responded : Responded s

/-- The state in which the handler returns after a failed `Meta` call. -/
def State.metaFailed {B F C : Type} (P : Prometheus B F C) : State B C :=
  { State.init P with
    main := .done
    trace := [.resp (.headerAdd "Content-Type" "text/plain"), .metaCall false,
      .resp (.writeHeader 500), .resp (.write metaErrorMessage)] }

/-! ## Termination measure -/

/-- Steps a fetcher still has in it, counting those of the batch it may pass on. -/
def FetcherPC.fuel {B : Type} : FetcherPC B → Nat
  | .recv => 1
  | .got _ => 8
  | .send _ => 7
  | .done => 0

/-- Steps an appender still has in it. -/
def AppenderPC.fuel {B : Type} : AppenderPC B → Nat
  | .recv => 1
  | .got _ => 5
  | .assign _ => 4
  | .check => 3
  | .errBody => 2
  | .done => 0

/-- Steps the handler goroutine still has in it, counting those of the identifiers it has
still to send and, before the start, of the goroutines it is going to spawn. -/
def MainPC.fuel {B : Type} (u : Upstream B) : MainPC → Nat
  | .start => 16 + u.numCPU + 8 * (u.Meta.getD []).length
  | .feed rest => 5 + 8 * rest.length
  | .waitGetters => 4
  | .closeEnv => 3
  | .waitAppender => 2
  | .write => 1
  | .done => 0

/-- A bound on the number of steps a request can still take. -/
def State.fuel {B C : Type} (u : Upstream B) (s : State B C) : Nat :=
  s.main.fuel u + (s.logGetters.map FetcherPC.fuel).sum + 5 * s.envelopeChan.length +
    (s.appender.map AppenderPC.fuel).sum

/-! ## Package `pkg/prometheus`, from the specification -/

/-- Modelled from the spec: the kind of a metric family of the absent package
`pkg/prometheus` (§3, counter or gauge). -/
inductive Kind where
  | counter
  | gauge
  deriving DecidableEq

/-- Modelled from the spec: the value of a sample of the absent package `pkg/prometheus`
(§4.3), a counter's cumulative total or a gauge's floating value, the latter carried as the
64 bits of the float. -/
inductive Value where
  | total (n : Nat)
  | float (bits : Nat)
  deriving DecidableEq

/-- Modelled from the spec: a labelled sample of the absent package `pkg/prometheus` (§3),
its label mapping and its value. -/
structure Sample where
  labels : List (String × String)
  value : Value
  deriving DecidableEq

/-- Modelled from the spec: a metric family of the absent package `pkg/prometheus` (§3):
the metric name, its kind and its labelled samples. -/
structure MetricFamily where
  name : String
  kind : Kind
  samples : List Sample
  deriving DecidableEq

/-- Modelled from the spec: the typed payload of an envelope, whose type is not among the
sources (§3): a counter's name and cumulative total, or a gauge's mapping of metric name to
floating value. `Read` is restricted to these two envelope types (§4.2). -/
inductive Payload where
  | counter (name : String) (total : Nat)
  | gauge (metrics : List (String × Nat))
  deriving DecidableEq

/-- Modelled from the spec: an envelope, whose type is not among the sources (§3): source
identifier, tag mapping (its entries, each key once) and typed payload. -/
structure Envelope where
  sourceID : String
  tags : List (String × String)
  payload : Payload
  deriving DecidableEq

/-- Modelled from the spec: the renaming to a valid identifier done by the absent package
`pkg/prometheus` (§3, §6): every character that is not a letter, a digit or `_` is replaced
by `_`, so `-` is. -/
def sanitize (s : String) : String :=
  String.mk (s.data.map fun c => if c.isAlphanum || c == '_' then c else '_')

/-- Modelled from the spec: the labels the absent package `pkg/prometheus` gives a sample
(§3, §6): `instance_id` set to the source identifier, then the envelope's tags with their
names renamed. -/
def labelsOf (e : Envelope) : List (String × String) :=
  ("instance_id", e.sourceID) :: e.tags.map fun t => (sanitize t.1, t.2)

/-- Modelled from the spec: the conversion rule per envelope of the absent package
`pkg/prometheus` (§4.3): a counter envelope gives one sample in the family of the counter's
name; a gauge envelope one sample per gauge metric, in the family of that metric's name. -/
def convertEnvelope (e : Envelope) : List MetricFamily :=
  match e.payload with
  | .counter name total =>
    [{ name := sanitize name, kind := .counter,
       samples := [{ labels := labelsOf e, value := .total total }] }]
  | .gauge metrics =>
    metrics.map fun m =>
      { name := sanitize m.1, kind := .gauge,
        samples := [{ labels := labelsOf e, value := .float m.2 }] }

/-- Modelled from the spec: the absent `prometheus.Convert` (§4.3), the families of a batch
in the order of its envelopes. -/
def Convert (envelopes : List Envelope) : List MetricFamily :=
  envelopes.flatMap convertEnvelope

/-- Modelled from the spec: the merge of one sample into the samples of a family in the
absent package `pkg/prometheus` (§3): the last writer for a label set wins, a new label set
is added. -/
def putSample (s : Sample) : List Sample → List Sample
  | [] => [s]
  | t :: ts => if t.labels = s.labels then s :: ts else t :: putSample s ts

/-- Modelled from the spec: the merge of samples into a family in the absent package
`pkg/prometheus` (§3), in their order. -/
def putSamples (new old : List Sample) : List Sample :=
  new.foldl (fun acc s => putSample s acc) old

/-- Modelled from the spec: the merge of a family into the collection of the absent package
`pkg/prometheus` (§3): the collection is keyed by metric name and holds one entry per name,
which gathers the samples of every family of that name. -/
def mergeFamily (f : MetricFamily) : List MetricFamily → List MetricFamily
  | [] => [{ f with samples := putSamples f.samples [] }]
  | g :: gs =>
    if g.name = f.name then { g with samples := putSamples f.samples g.samples } :: gs
    else g :: mergeFamily f gs

/-- Modelled from the spec: the absent `MetricsCollection.Append` (§4.3), merging the
converted families in their order; the merge of §3 has no failing case, so no error is
returned. -/
def Append (c : List MetricFamily) (families : List MetricFamily) : List MetricFamily × Bool :=
  (families.foldl (fun acc f => mergeFamily f acc) c, false)

/-- Modelled from the spec: a label mapping as the absent `MetricsCollection.Write` prints
it in the exposition format (§6). -/
def renderLabels (labels : List (String × String)) : String :=
  "\x7b" ++ ",".intercalate (labels.map fun l => l.1 ++ "=\"" ++ l.2 ++ "\"") ++ "\x7d"

/-- Modelled from the spec: a sample value as the absent `MetricsCollection.Write` prints
it (§6); how a float prints is left to `formatFloat`. -/
def renderValue (formatFloat : Nat → String) : Value → String
  | .total n => toString n
  | .float bits => formatFloat bits

/-- Modelled from the spec: one metric family as the absent `MetricsCollection.Write` prints
it (§6): the `TYPE` header line, then one line per labelled sample. -/
def renderFamily (formatFloat : Nat → String) (f : MetricFamily) : String :=
  "# TYPE " ++ f.name ++ " " ++ (if f.kind = .counter then "counter" else "gauge") ++ "\n" ++
    String.join (f.samples.map fun s =>
      f.name ++ renderLabels s.labels ++ " " ++ renderValue formatFloat s.value ++ "\n")

/-- Modelled from the spec: the absent `MetricsCollection.Write` (§6), the families one
after the other. -/
def Write (formatFloat : Nat → String) (c : List MetricFamily) : String :=
  String.join (c.map (renderFamily formatFloat))

/-- Modelled from the spec: the absent package `pkg/prometheus`; the collection starts
empty. -/
def prometheus (formatFloat : Nat → String) :
    Prometheus (List Envelope) (List MetricFamily) (List MetricFamily) :=
  { CreateMetricsCollection := []
    Convert := Convert
    Append := Append
    Write := Write formatFloat }

/-! ## The content of a collection -/

/-- Identifier of the first source of the test. -/
def sourceA : String := "aaaaaaaa-aaaa-aaaa-aaaa-aaaaaaaaaaaa"

/-- Identifier of the second source of the test. -/
def sourceB : String := "bbbbbbbb-bbbb-bbbb-bbbb-bbbbbbbbbbbb"

/-- The batch the test returns for the first source: a gauge and a counter. -/
def batchA : List Envelope :=
  [{ sourceID := sourceA, tags := [("tag-a", "val-a")],
     payload := .gauge [("a-gauge", 0x40091EB851EB851F)] },
   { sourceID := sourceA, tags := [("tag-a", "val-a")], payload := .counter "counter" 8 }]

/-- The batch the test returns for the second source: a counter. -/
def batchB : List Envelope :=
  [{ sourceID := sourceB, tags := [("tag-b", "val-b")], payload := .counter "counter" 10 }]

/-- The request of the test: `GET /metrics` with an `Authorization` header. -/
def testRequest : Request :=
  { method := "GET", url := "/metrics",
    header := fun k =>
      if k = "Authorization" then some ["__JWT_ACCESS_TOKEN__"]
      else if k = "Accept" then some ["text/plain"] else none }

/-- The upstream of the test "should serve the requested data correctly": `Meta` lists
the two sources, each `Read` returns its batch; one CPU. -/
def testUpstream : Upstream (List Envelope) :=
  { r := testRequest
    metaRequest := { method := "GET", url := "https://example.com/v1/meta", header := fun _ => none }
    readRequest := fun sourceID =>
      { method := "GET", url := "https://example.com/v1/read/" ++ sourceID,
        header := fun _ => none }
    metaRoundTrip := fun _ => some [sourceA, sourceB]
    readRoundTrip := fun req =>
      if req.url = "https://example.com/v1/read/" ++ sourceA then some batchA
      else if req.url = "https://example.com/v1/read/" ++ sourceB then some batchB
      else none
    numCPU := 1 }

/-- How the test prints the one float it uses. -/
def testFormat : Nat → String := fun _ => "3.14"

/-- A schedule of the test request that runs to the return of the handler: fetcher 0
takes both identifiers, then everything shuts down in order. -/
def testSchedule : List Action :=
  [.main, .fetcher 0, .fetcher 0, .fetcher 0, .fetcher 0, .fetcher 0, .fetcher 0, .main,
   .fetcher 0, .fetcher 1, .fetcher 2, .fetcher 3, .fetcher 4, .fetcher 5, .fetcher 6,
   .fetcher 7, .fetcher 8, .fetcher 9, .main, .main,
   .appender 0, .appender 0, .appender 0, .appender 0,
   .appender 0, .appender 0, .appender 0, .appender 0, .appender 0, .main, .main]

/-- The state the test schedule ends in. -/
def testFinal : State (List Envelope) (List MetricFamily) :=
  (handleMetrics (prometheus testFormat) testUpstream testSchedule).getD
    (State.init (prometheus testFormat))

/-- The upstream of the test "should return nothing if there are no metrics": `Meta`
returns an empty mapping. -/
def emptyUpstream : Upstream (List Envelope) :=
  { testUpstream with metaRoundTrip := fun _ => some [] }

/-- An upstream whose `Meta` call fails. -/
def downUpstream : Upstream (List Envelope) :=
  { testUpstream with metaRoundTrip := fun _ => none }

/-- An upstream on which the `Read` of the second source fails. -/
def halfUpstream : Upstream (List Envelope) :=
  { testUpstream with
    readRoundTrip := fun req =>
      if req.url = "https://example.com/v1/read/" ++ sourceA then some batchA else none }

/-- A schedule of a request with no source that runs to the return of the handler. -/
def emptySchedule : List Action :=
  [.main, .main, .fetcher 0, .fetcher 1, .fetcher 2, .fetcher 3, .fetcher 4, .fetcher 5,
   .fetcher 6, .fetcher 7, .fetcher 8, .fetcher 9, .main, .main, .appender 0, .main, .main]

/-- A schedule of the request on `halfUpstream` that runs to the return of the handler. -/
def halfSchedule : List Action :=
  [.main, .fetcher 0, .fetcher 0, .fetcher 0, .fetcher 0, .fetcher 0, .main,
   .fetcher 0, .fetcher 1, .fetcher 2, .fetcher 3, .fetcher 4, .fetcher 5, .fetcher 6,
   .fetcher 7, .fetcher 8, .fetcher 9, .main, .main,
   .appender 0, .appender 0, .appender 0, .appender 0, .appender 0, .main, .main]

/-- The state `emptySchedule` ends in. -/
def emptyFinal : State (List Envelope) (List MetricFamily) :=
  (handleMetrics (prometheus testFormat) emptyUpstream emptySchedule).getD
    (State.init (prometheus testFormat))

/-- The state `halfSchedule` ends in. -/
def halfFinal : State (List Envelope) (List MetricFamily) :=
  (handleMetrics (prometheus testFormat) halfUpstream halfSchedule).getD
    (State.init (prometheus testFormat))

/-- The package with an `Append` that reports an error on every batch, standing for the
error return of `MetricsCollection.Append`. -/
def failingPrometheus : Prometheus (List Envelope) (List MetricFamily) (List MetricFamily) :=
  { prometheus testFormat with
    Append := fun c families => (((prometheus testFormat).Append c families).1, true) }

/-- A schedule of the test request in which both appends fail and each appender iteration
writes its error response before the next batch is taken. -/
def failingSchedule : List Action :=
  [.main, .fetcher 0, .fetcher 0, .fetcher 0, .fetcher 0, .fetcher 0, .fetcher 0, .main,
   .fetcher 0, .fetcher 1, .fetcher 2, .fetcher 3, .fetcher 4, .fetcher 5, .fetcher 6,
   .fetcher 7, .fetcher 8, .fetcher 9, .main, .main,
   .appender 0, .appender 0, .appender 0, .appender 0, .appender 0,
   .appender 0, .appender 0, .appender 0, .appender 0, .appender 0, .appender 0, .main, .main]

/-- The package with an `Append` that reports an error on a batch holding the metric
`a_gauge` and on no other. -/
def pickyPrometheus : Prometheus (List Envelope) (List MetricFamily) (List MetricFamily) :=
  { prometheus testFormat with
    Append := fun c families =>
      (((prometheus testFormat).Append c families).1, families.any fun f => f.name == "a_gauge") }

/-- The upstream of the test on a machine with two CPUs. -/
def twoCPUUpstream : Upstream (List Envelope) :=
  { testUpstream with numCPU := 2 }

/-- A schedule of the test request with two appenders: the first appends the batch of the
first source, the second that of the second source, and the second stores its result in
`err` after the first and before the first tests `err`. -/
def racingSchedule : List Action :=
  [.main, .fetcher 0, .fetcher 0, .fetcher 0, .fetcher 0, .fetcher 0, .fetcher 0, .main,
   .fetcher 0, .fetcher 1, .fetcher 2, .fetcher 3, .fetcher 4, .fetcher 5, .fetcher 6,
   .fetcher 7, .fetcher 8, .fetcher 9, .main, .main,
   .appender 0, .appender 0, .appender 1, .appender 1, .appender 0, .appender 1,
   .appender 0, .appender 1, .appender 0, .appender 1, .main, .main]

theorem uuid.xvalue_ne_iff (b : Nat) : uuid.xvalue b ≠ 255 ↔ isHexDigit b = true := by
  unfold uuid.xvalue isHexDigit
  simp only [Bool.or_eq_true, Bool.and_eq_true, decide_eq_true_eq]
  split_ifs <;> omega

theorem uuid.xtob_isSome (x1 x2 : Nat) :
    (uuid.xtob x1 x2).isSome = (isHexDigit x1 && isHexDigit x2) := by
  unfold uuid.xtob
  by_cases h1 : isHexDigit x1 = true <;> by_cases h2 : isHexDigit x2 = true <;>
    simp [h1, h2, ← uuid.xvalue_ne_iff, (uuid.xvalue_ne_iff x1).mpr, (uuid.xvalue_ne_iff x2).mpr] <;>
    simp_all [← uuid.xvalue_ne_iff]

theorem option_mapM_isSome {α β : Type} (f : α → Option β) (l : List α) :
    (l.mapM f).isSome = l.all fun x => (f x).isSome := by
  induction l with
  | nil => rfl
  | cons a l ih =>
    rw [List.mapM_cons, List.all_cons, ← ih]
    cases f a <;> cases l.mapM f <;> rfl

theorem uuid.byteAt_drop (s : List Nat) (k i : Nat) :
    uuid.byteAt (s.drop k) i = uuid.byteAt s (k + i) := by
  simp [uuid.byteAt, List.getD_eq_getElem?_getD, List.getElem?_drop]

theorem uuid.parseHyphenated_isSome (s : List Nat) :
    (uuid.parseHyphenated s).isSome = hyphenatedAt s 0 := by
  unfold uuid.parseHyphenated
  rw [Bool.eq_iff_iff]
  split_ifs with h
  · simp only [Option.isSome_none, Bool.false_eq_true, false_iff]
    intro hh
    simp only [hyphenatedAt, List.all_eq_true, List.mem_range, Nat.zero_add] at hh
    have h8 := hh 8 (by omega)
    have h13 := hh 13 (by omega)
    have h18 := hh 18 (by omega)
    have h23 := hh 23 (by omega)
    simp at h8 h13 h18 h23
    omega
  · rw [option_mapM_isSome]
    simp only [hyphenatedAt, List.all_eq_true, List.mem_range, Nat.zero_add, uuid.xtob_isSome,
      Bool.and_eq_true]
    constructor
    · intro hp i hi
      have hp0 := hp 0 (by decide)
      have hp2 := hp 2 (by decide)
      have hp4 := hp 4 (by decide)
      have hp6 := hp 6 (by decide)
      have hp9 := hp 9 (by decide)
      have hp11 := hp 11 (by decide)
      have hp14 := hp 14 (by decide)
      have hp16 := hp 16 (by decide)
      have hp19 := hp 19 (by decide)
      have hp21 := hp 21 (by decide)
      have hp24 := hp 24 (by decide)
      have hp26 := hp 26 (by decide)
      have hp28 := hp 28 (by decide)
      have hp30 := hp 30 (by decide)
      have hp32 := hp 32 (by decide)
      have hp34 := hp 34 (by decide)
      simp only [not_or, not_not] at h
      interval_cases i <;> simp_all
    · intro hh x hx
      have hx36 : x < 36 ∧ x + 1 < 36 ∧ ¬ (x = 8 ∨ x = 13 ∨ x = 18 ∨ x = 23) ∧
          ¬ (x + 1 = 8 ∨ x + 1 = 13 ∨ x + 1 = 18 ∨ x + 1 = 23) := by
        simp only [uuid.pairOffsets, List.mem_cons, List.mem_singleton, List.not_mem_nil,
          or_false] at hx
        omega
      have h1 := hh x hx36.1
      have h2 := hh (x + 1) hx36.2.1
      rw [if_neg hx36.2.2.1] at h1
      rw [if_neg hx36.2.2.2] at h2
      exact ⟨h1, h2⟩

theorem uuid.rawHex_isSome (s : List Nat) :
    ((List.range 16).mapM fun i =>
        uuid.xtob (uuid.byteAt s (i * 2)) (uuid.byteAt s (i * 2 + 1))).isSome =
      (List.range 32).all fun i => isHexDigit (uuid.byteAt s i) := by
  rw [option_mapM_isSome, Bool.eq_iff_iff]
  simp only [List.all_eq_true, List.mem_range, uuid.xtob_isSome, Bool.and_eq_true]
  constructor
  · intro hp i hi
    rcases Nat.even_or_odd' i with ⟨k, hk | hk⟩
    · have := (hp k (by omega)).1
      rw [hk, Nat.mul_comm]; exact this
    · have := (hp k (by omega)).2
      rw [hk, Nat.mul_comm]; exact this
  · intro hh i hi
    exact ⟨hh (i * 2) (by omega), hh (i * 2 + 1) (by omega)⟩

theorem uuid.hyphenatedAt_drop (s : List Nat) (k : Nat) :
    hyphenatedAt (s.drop k) 0 = hyphenatedAt s k := by
  simp [hyphenatedAt, uuid.byteAt_drop]

/-- The four encodings `uuid.Parse` accepts, told apart by length. -/
theorem uuid.Parse_isSome (s : List Nat) :
    (uuid.Parse s).isSome =
      (isHyphenatedUUID s || isUrnUUID s || isEnclosedUUID s || isRawHexUUID s) := by
  unfold uuid.Parse isHyphenatedUUID isUrnUUID isEnclosedUUID isRawHexUUID
  have hb : ∀ n : Nat, (s.length == n) = decide (s.length = n) := fun n => by
    by_cases h : s.length = n <;> simp [h]
  rw [hb 36, hb 45, hb 38, hb 32]
  split_ifs with h36 h45 hp h38 h32
  · rw [uuid.parseHyphenated_isSome, decide_eq_true h36,
      decide_eq_false (by omega : ¬ s.length = 45), decide_eq_false (by omega : ¬ s.length = 38),
      decide_eq_false (by omega : ¬ s.length = 32)]
    simp only [Bool.true_and, Bool.false_and, Bool.or_false]
  · have hp' : ((s.take 9).map uuid.lowerByte == uuid.urnScheme) = false :=
      beq_eq_false_iff_ne.mpr hp
    rw [hp', decide_eq_false h36, decide_eq_false (by omega : ¬ s.length = 38),
      decide_eq_false (by omega : ¬ s.length = 32)]
    simp only [Bool.true_and, Bool.false_and, Bool.or_false, Bool.and_false, Option.isSome_none]
  · have hp' : ((s.take 9).map uuid.lowerByte == uuid.urnScheme) = true :=
      beq_iff_eq.mpr (not_not.mp hp)
    rw [hp', uuid.parseHyphenated_isSome, uuid.hyphenatedAt_drop, decide_eq_false h36,
      decide_eq_true (by omega : s.length = 45), decide_eq_false (by omega : ¬ s.length = 38),
      decide_eq_false (by omega : ¬ s.length = 32)]
    simp only [Bool.true_and, Bool.false_and, Bool.or_false, Bool.false_or, Bool.and_true]
  · rw [uuid.parseHyphenated_isSome, uuid.hyphenatedAt_drop, decide_eq_false h36,
      decide_eq_false (by omega : ¬ s.length = 45), decide_eq_true (by omega : s.length = 38),
      decide_eq_false (by omega : ¬ s.length = 32)]
    simp only [Bool.true_and, Bool.false_and, Bool.or_false, Bool.false_or]
  · rw [uuid.rawHex_isSome, decide_eq_false h36,
      decide_eq_false (by omega : ¬ s.length = 45), decide_eq_false (by omega : ¬ s.length = 38),
      decide_eq_true h32]
    simp only [Bool.true_and, Bool.false_and, Bool.or_false, Bool.false_or]
  · rw [decide_eq_false h36, decide_eq_false (by omega : ¬ s.length = 45),
      decide_eq_false (by omega : ¬ s.length = 38), decide_eq_false h32]
    simp only [Bool.false_and, Bool.or_false, Option.isSome_none]

set_option maxRecDepth 100000 in
/-- C5, as stated, fails: 32 hexadecimal digits without any hyphen, and a UUID behind the
prefix `urn:uuid:`, are not in the 8-4-4-4-12 hyphenated grammar, yet
`isTenantResourceSourceID` accepts them. -/
theorem isTenantResourceSourceID_accepts_unhyphenated :
    (isTenantResourceSourceID "aaaaaaaaaaaaaaaaaaaaaaaaaaaaaaaa" = true ∧
      isHyphenatedUUID (goBytes "aaaaaaaaaaaaaaaaaaaaaaaaaaaaaaaa") = false) ∧
    (isTenantResourceSourceID "urn:uuid:aaaaaaaa-aaaa-aaaa-aaaa-aaaaaaaaaaaa" = true ∧
      isHyphenatedUUID (goBytes "urn:uuid:aaaaaaaa-aaaa-aaaa-aaaa-aaaaaaaaaaaa") = false) := by
  decide

/-- C5, amended: `isTenantResourceSourceID` is total and returns true exactly on the four
encodings `uuid.Parse` decodes: the 8-4-4-4-12 hyphenated form, that form after `urn:uuid:`,
that form between two enclosing bytes, and 32 raw hexadecimal digits; it is false on every
other string, the empty one included. -/
theorem isTenantResourceSourceID_iff (s : String) :
    (isTenantResourceSourceID s = true ↔
      (isHyphenatedUUID (goBytes s) = true ∨ isUrnUUID (goBytes s) = true ∨
        isEnclosedUUID (goBytes s) = true ∨ isRawHexUUID (goBytes s) = true)) ∧
    isTenantResourceSourceID "" = false := by
  have h := uuid.Parse_isSome (goBytes s)
  unfold isTenantResourceSourceID
  refine ⟨?_, by decide⟩
  rw [h]; simp only [Bool.or_eq_true, or_assoc]

/-! ### Control invariant -/

@[simp]
theorem FetcherPC.isDone_iff_done {B : Type} (f : FetcherPC B) : f.isDone = true ↔ f = .done := by
  cases f <;> simp [FetcherPC.isDone]

@[simp]
theorem AppenderPC.isDone_eq_true_iff {B : Type} (f : AppenderPC B) : f.isDone = true ↔ f = .done := by
  cases f <;> simp [AppenderPC.isDone]

@[simp]
theorem MainPC.phase_start : MainPC.start.phase = 0 := rfl
@[simp]
theorem MainPC.phase_feed (rest : List String) : (MainPC.feed rest).phase = 1 := rfl
@[simp]
theorem MainPC.phase_waitGetters : MainPC.waitGetters.phase = 2 := rfl
@[simp]
theorem MainPC.phase_closeEnv : MainPC.closeEnv.phase = 3 := rfl
@[simp]
theorem MainPC.phase_waitAppender : MainPC.waitAppender.phase = 4 := rfl
@[simp]
theorem MainPC.phase_write : MainPC.write.phase = 5 := rfl
@[simp]
theorem MainPC.phase_done : MainPC.done.phase = 6 := rfl

theorem Control.control_main {B F C : Type} (P : Prometheus B F C) (u : Upstream B)
    {s t : State B C} (h : Control u s) (hs : stepMain P u s = some t) : Control u t := by
  obtain ⟨h1, h2, h3, h4, h5, h6, h7, h8, h9, h10, h11⟩ := h
  unfold stepMain at hs
  split at hs
  · rename_i hm; simp [hm] at h1
  · rename_i hm
    simp only [Option.some.injEq] at hs
    subst hs
    constructor <;> simp_all
  · simp at hs
  · rename_i hm
    split at hs
    · rename_i hd
      simp only [Option.some.injEq] at hs
      subst hs
      constructor
      all_goals (try simp_all)
      all_goals (try assumption)
    · simp at hs
  · rename_i hm
    simp only [Option.some.injEq] at hs
    subst hs
    constructor
    all_goals (try simp_all)
    all_goals (try assumption)
  · rename_i hm
    split at hs
    · rename_i hd
      simp only [Option.some.injEq] at hs
      subst hs
      constructor
      all_goals (try simp_all)
      all_goals (try assumption)
    · simp at hs
  · rename_i hm
    simp only [Option.some.injEq] at hs
    subst hs
    constructor
    all_goals (try simp_all)
    all_goals (try assumption)
  · simp at hs

theorem mem_set_of_getElem? {α : Type} {l : List α} {i : Nat} {x y z : α}
    (_h : l[i]? = some y) (hz : z ∈ l.set i x) : z = x ∨ z ∈ l := by
  rcases List.mem_or_eq_of_mem_set hz with h1 | h1
  · exact Or.inr h1
  · exact Or.inl h1

theorem Control.fetcher_update {B C : Type} {u : Upstream B} {s t : State B C}
    (h : Control u s) {i : Nat} {y x : FetcherPC B}
    (hi : s.logGetters[i]? = some y) (hy : y ≠ FetcherPC.done)
    (hx : x = FetcherPC.done → s.sourceIDsClosed = true)
    (hphase : t.main.phase = s.main.phase)
    (hsrc : t.sourceIDsClosed = s.sourceIDsClosed)
    (henv : t.envelopeChanClosed = s.envelopeChanClosed)
    (hget : t.logGetters = s.logGetters.set i x)
    (happ : t.appender = s.appender)
    (hpanic : t.panicked = s.panicked)
    (hchan : t.envelopeChan = s.envelopeChan ∨
      (s.envelopeChanClosed = false ∧ s.envelopeChan.length < 10 ∧
        ∃ b, t.envelopeChan = s.envelopeChan ++ [b])) :
    Control u t := by
  have hmem := List.getElem?_mem hi
  have hlt : s.main.phase < 3 := by
    by_contra hc
    exact hy (h.getters_done (by omega) y hmem)
  refine ⟨by rw [hphase]; exact h.phase_pos, by rw [hget, List.length_set]; exact h.getters_len,
    by rw [happ]; exact h.appender_len, by rw [hphase, hsrc]; exact h.src_closed,
    by rw [hphase, henv]; exact h.env_closed, ?_, ?_, ?_, ?_, ?_, by rw [hpanic]; exact h.no_panic⟩
  · intro h3; rw [hphase] at h3; omega
  · intro h5; rw [hphase] at h5; omega
  · rw [hget, hphase]
    intro hd
    rcases mem_set_of_getElem? hi hd with h1 | h1
    · exact h.src_closed.mp (hx h1.symm)
    · exact h.getter_exit h1
  · rw [happ, hphase]
    intro hd
    have h4 := (h.appender_exit hd).1
    omega
  · rcases hchan with hc | ⟨_, hlen, b, hb⟩
    · rw [hc]; exact h.chan_cap
    · rw [hb, List.length_append]; simp only [List.length_singleton]; omega

theorem Control.appender_update {B C : Type} {u : Upstream B} {s t : State B C}
    (h : Control u s) {j : Nat} {y x : AppenderPC B}
    (hj : s.appender[j]? = some y) (hy : y ≠ AppenderPC.done)
    (hx : x = AppenderPC.done → s.envelopeChanClosed = true ∧ s.envelopeChan = [])
    (hmain : t.main = s.main)
    (hsrc : t.sourceIDsClosed = s.sourceIDsClosed)
    (henv : t.envelopeChanClosed = s.envelopeChanClosed)
    (hget : t.logGetters = s.logGetters)
    (happ : t.appender = s.appender.set j x)
    (hpanic : t.panicked = s.panicked)
    (hchan : t.envelopeChan = s.envelopeChan ∨ ∃ b, s.envelopeChan = b :: t.envelopeChan) :
    Control u t := by
  have hmem := List.getElem?_mem hj
  have hlt : s.main.phase < 5 := by
    by_contra hc
    exact hy (h.appender_done (by omega) y hmem)
  have hchan_nil : s.envelopeChan = [] → t.envelopeChan = [] := by
    intro hn
    rcases hchan with hc | ⟨b, hb⟩
    · rw [hc, hn]
    · rw [hn] at hb; cases hb
  refine ⟨by rw [hmain]; exact h.phase_pos, by rw [hget]; exact h.getters_len,
    by rw [happ, List.length_set]; exact h.appender_len, by rw [hmain, hsrc]; exact h.src_closed,
    by rw [hmain, henv]; exact h.env_closed, by rw [hmain, hget]; exact h.getters_done, ?_,
    by rw [hmain, hget]; exact h.getter_exit, ?_, ?_, by rw [hpanic]; exact h.no_panic⟩
  · intro h5; rw [hmain] at h5; omega
  · rw [happ, hmain]
    intro hd
    rcases mem_set_of_getElem? hj hd with h1 | h1
    · obtain ⟨hc, hn⟩ := hx h1.symm
      exact ⟨h.env_closed.mp hc, hchan_nil hn⟩
    · exact ⟨(h.appender_exit h1).1, hchan_nil (h.appender_exit h1).2⟩
  · rcases hchan with hc | ⟨b, hb⟩
    · rw [hc]; exact h.chan_cap
    · have := h.chan_cap
      rw [hb, List.length_cons] at this
      omega

theorem Control.control_fetcher {B C : Type} (u : Upstream B)
    {s t : State B C} (i : Nat) (h : Control u s) (hs : stepFetcher u s i = some t) :
    Control u t := by
  unfold stepFetcher at hs
  split at hs
  · simp at hs
  · rename_i hi
    split at hs
    · rename_i hc
      simp only [Option.some.injEq] at hs
      subst hs
      exact h.fetcher_update hi (by simp) (fun _ => hc) rfl rfl rfl rfl rfl rfl (Or.inl rfl)
    · split at hs
      · rename_i hm
        simp only [Option.some.injEq] at hs
        subst hs
        exact h.fetcher_update hi (by simp) (by simp) (by simp [hm]) rfl rfl rfl rfl rfl
          (Or.inl rfl)
      · simp at hs
  · rename_i sid hi
    split at hs
    · split at hs
      · simp only [Option.some.injEq] at hs
        subst hs
        exact h.fetcher_update hi (by simp) (by simp) rfl rfl rfl rfl rfl rfl (Or.inl rfl)
      · simp only [Option.some.injEq] at hs
        subst hs
        exact h.fetcher_update hi (by simp) (by simp) rfl rfl rfl rfl rfl rfl (Or.inl rfl)
    · simp only [Option.some.injEq] at hs
      subst hs
      exact h.fetcher_update hi (by simp) (by simp) rfl rfl rfl rfl rfl rfl (Or.inl rfl)
  · rename_i b hi
    split at hs
    · rename_i hc
      have := h.getters_done (by have := h.env_closed.mp hc; omega) _ (List.getElem?_mem hi)
      simp at this
    · rename_i hc
      split at hs
      · rename_i hlen
        simp only [Option.some.injEq] at hs
        subst hs
        exact h.fetcher_update hi (by simp) (by simp) rfl rfl rfl rfl rfl rfl
          (Or.inr ⟨by simpa using hc, hlen, b, rfl⟩)
      · simp at hs
  · simp at hs

theorem Control.control_appender {B F C : Type} (P : Prometheus B F C) (u : Upstream B)
    {s t : State B C} (j : Nat) (h : Control u s) (hs : stepAppender P s j = some t) :
    Control u t := by
  unfold stepAppender at hs
  split at hs
  · simp at hs
  · rename_i hj
    split at hs
    · rename_i b rest hc
      simp only [Option.some.injEq] at hs
      subst hs
      exact h.appender_update hj (by simp) (by simp) rfl rfl rfl rfl rfl rfl (Or.inr ⟨b, hc⟩)
    · rename_i hc
      split at hs
      · rename_i hcl
        simp only [Option.some.injEq] at hs
        subst hs
        exact h.appender_update hj (by simp) (fun _ => ⟨hcl, hc⟩) rfl rfl rfl rfl rfl rfl
          (Or.inl rfl)
      · simp at hs
  · rename_i b hj
    simp only [Option.some.injEq] at hs
    subst hs
    exact h.appender_update hj (by simp) (by simp) rfl rfl rfl rfl rfl rfl (Or.inl rfl)
  · rename_i e hj
    simp only [Option.some.injEq] at hs
    subst hs
    exact h.appender_update hj (by simp) (by simp) rfl rfl rfl rfl rfl rfl (Or.inl rfl)
  · rename_i hj
    split at hs
    · simp only [Option.some.injEq] at hs
      subst hs
      exact h.appender_update hj (by simp) (by simp) rfl rfl rfl rfl rfl rfl (Or.inl rfl)
    · simp only [Option.some.injEq] at hs
      subst hs
      exact h.appender_update hj (by simp) (by simp) rfl rfl rfl rfl rfl rfl (Or.inl rfl)
  · rename_i hj
    simp only [Option.some.injEq] at hs
    subst hs
    exact h.appender_update hj (by simp) (by simp) rfl rfl rfl rfl rfl rfl (Or.inl rfl)
  · simp at hs

theorem Control.control_step {B F C : Type} (P : Prometheus B F C) (u : Upstream B)
    {s t : State B C} (a : Action) (h : Control u s) (hs : step P u s a = some t) :
    Control u t := by
  cases a with
  | main => exact Control.control_main P u h hs
  | fetcher i => exact Control.control_fetcher u i h hs
  | appender j => exact Control.control_appender P u j h hs

/-! ### Accounting invariant -/

theorem sum_map_set {α M : Type} [AddCommMonoid M] (g : α → M) {l : List α} {i : Nat} {y : α}
    (h : l[i]? = some y) :
    ∃ R : M, (l.map g).sum = g y + R ∧ ∀ x, ((l.set i x).map g).sum = g x + R := by
  induction l generalizing i with
  | nil => simp at h
  | cons a l ih =>
    cases i with
    | zero =>
      simp only [List.getElem?_cons_zero, Option.some.injEq] at h
      subst h
      exact ⟨(l.map g).sum, by simp, fun x => by simp⟩
    | succ i =>
      simp only [List.getElem?_cons_succ] at h
      obtain ⟨R, h1, h2⟩ := ih h
      refine ⟨g a + R, ?_, fun x => ?_⟩
      · simp only [List.map_cons, List.sum_cons, h1]
        exact add_left_comm _ _ _
      · simp only [List.set_cons_succ, List.map_cons, List.sum_cons, h2]
        exact add_left_comm _ _ _

theorem readCalls_append {B C : Type} (a b : List (Event B C)) :
    readCalls (a ++ b) = readCalls a ++ readCalls b := by
  induction a with
  | nil => rfl
  | cons e a ih => cases e <;> simp [readCalls, ih]

theorem appendCalls_append {B C : Type} (a b : List (Event B C)) :
    appendCalls (a ++ b) = appendCalls a ++ appendCalls b := by
  induction a with
  | nil => rfl
  | cons e a ih => cases e <;> simp [appendCalls, ih]

theorem respCalls_append {B C : Type} (a b : List (Event B C)) :
    respCalls (a ++ b) = respCalls a ++ respCalls b := by
  induction a with
  | nil => rfl
  | cons e a ih => cases e <;> simp [respCalls, ih]

theorem appendFailed_append {B C : Type} (a b : List (Event B C)) :
    appendFailed (a ++ b) = (appendFailed a || appendFailed b) := by
  induction a with
  | nil => rfl
  | cons e a ih => cases e <;> simp [appendFailed, ih, Bool.or_assoc]

theorem eligible_cons (sid : String) (rest : List String) :
    eligible (sid :: rest) = eligible [sid] ++ eligible rest := by
  unfold eligible
  rw [← List.filter_append]; rfl

theorem readable_cons {B : Type} (u : Upstream B) (sid : String) (rest : List String) :
    readable u (sid :: rest) = readable u [sid] ++ readable u rest := by
  unfold readable
  rw [eligible_cons, List.filterMap_append]

theorem appended_snoc {B F C : Type} (P : Prometheus B F C) (bs : List B) (b : B) :
    appended P (bs ++ [b]) = (P.Append (appended P bs) (P.Convert b)).1 := by
  simp [appended, List.foldl_append]

theorem MainPC.rest_eq_nil {m : MainPC} (h : 2 ≤ m.phase) : m.rest = [] := by
  cases m <;> simp [MainPC.rest] at * 

theorem Ledger.ledger_main {B F C : Type} (P : Prometheus B F C) (u : Upstream B)
    (ids : List String) {s t : State B C} (hc : Control u s) (h : Ledger P u ids s)
    (hs : stepMain P u s = some t) : Ledger P u ids t := by
  obtain ⟨h1, h2, h3⟩ := h
  unfold stepMain at hs
  split at hs
  · rename_i hm; have := hc.phase_pos; simp [hm] at this
  · rename_i hm
    simp only [Option.some.injEq] at hs
    subst hs
    simp only [hm, MainPC.rest] at h1 h2
    exact ⟨by simpa [readCalls_append, readCalls, MainPC.rest] using h1,
      by simpa [appendCalls_append, appendCalls, MainPC.rest] using h2,
      by simpa [appendCalls_append, appendCalls] using h3⟩
  · simp at hs
  · rename_i hm
    split at hs
    · simp only [Option.some.injEq] at hs
      subst hs
      simp only [hm, MainPC.rest] at h1 h2
      exact ⟨by simpa [MainPC.rest] using h1, by simpa [MainPC.rest] using h2, h3⟩
    · simp at hs
  · rename_i hm
    simp only [Option.some.injEq] at hs
    subst hs
    simp only [hm, MainPC.rest] at h1 h2
    exact ⟨by simpa [readCalls_append, readCalls, MainPC.rest] using h1,
      by simpa [appendCalls_append, appendCalls, MainPC.rest] using h2,
      by simpa [appendCalls_append, appendCalls] using h3⟩
  · rename_i hm
    split at hs
    · simp only [Option.some.injEq] at hs
      subst hs
      simp only [hm, MainPC.rest] at h1 h2
      exact ⟨by simpa [MainPC.rest] using h1, by simpa [MainPC.rest] using h2, h3⟩
    · simp at hs
  · rename_i hm
    simp only [Option.some.injEq] at hs
    subst hs
    simp only [hm, MainPC.rest] at h1 h2
    exact ⟨by simpa [readCalls_append, readCalls, MainPC.rest] using h1,
      by simpa [appendCalls_append, appendCalls, MainPC.rest] using h2,
      by simpa [appendCalls_append, appendCalls] using h3⟩
  · simp at hs
theorem Ledger.ledger_fetcher {B F C : Type} (P : Prometheus B F C) (u : Upstream B)
    (ids : List String) {s t : State B C} (i : Nat) (hc : Control u s) (h : Ledger P u ids s)
    (hs : stepFetcher u s i = some t) : Ledger P u ids t := by
  obtain ⟨h1, h2, h3⟩ := h
  unfold stepFetcher at hs
  split at hs
  · simp at hs
  · rename_i hi
    obtain ⟨R1, e1, e1'⟩ := sum_map_set FetcherPC.owedIDs hi
    obtain ⟨R2, e2, e2'⟩ := sum_map_set (FetcherPC.owedEnvs u) hi
    rw [e1] at h1
    rw [e2] at h2
    split at hs
    · simp only [Option.some.injEq] at hs
      subst hs
      refine ⟨?_, ?_, h3⟩
      · simp only [e1']; exact h1
      · simp only [e2']; exact h2
    · split at hs
      · rename_i sid rest hm
        simp only [Option.some.injEq] at hs
        subst hs
        simp only [hm, MainPC.rest] at h1 h2
        rw [eligible_cons, ← Multiset.coe_add] at h1
        rw [readable_cons, ← Multiset.coe_add] at h2
        refine ⟨?_, ?_, h3⟩
        · simp only [e1', MainPC.rest, FetcherPC.owedIDs]
          rw [← h1]; simp only [FetcherPC.owedIDs]; abel
        · simp only [e2', MainPC.rest, FetcherPC.owedEnvs]
          rw [← h2]; simp only [FetcherPC.owedEnvs]; abel
      · simp at hs
  · rename_i sid hi
    obtain ⟨R1, e1, e1'⟩ := sum_map_set FetcherPC.owedIDs hi
    obtain ⟨R2, e2, e2'⟩ := sum_map_set (FetcherPC.owedEnvs u) hi
    rw [e1] at h1
    rw [e2] at h2
    split at hs
    · rename_i helig
      have hel : eligible [sid] = [sid] := by simp [eligible, helig]
      split at hs
      · rename_i hr
        have hrd : readable u [sid] = [] := by simp [readable, hel, hr]
        simp only [Option.some.injEq] at hs
        subst hs
        refine ⟨?_, ?_, ?_⟩
        · simp only [e1', readCalls_append, readCalls, ← Multiset.coe_add]
          rw [← h1]; simp only [FetcherPC.owedIDs, hel]; abel
        · simp only [e2', appendCalls_append, appendCalls, List.append_nil]
          rw [← h2]; simp only [FetcherPC.owedEnvs, hrd, Multiset.coe_nil]
        · simpa [appendCalls_append, appendCalls] using h3
      · rename_i b hr
        have hrd : readable u [sid] = [b] := by simp [readable, hel, hr]
        simp only [Option.some.injEq] at hs
        subst hs
        refine ⟨?_, ?_, ?_⟩
        · simp only [e1', readCalls_append, readCalls, ← Multiset.coe_add]
          rw [← h1]; simp only [FetcherPC.owedIDs, hel]; abel
        · simp only [e2', appendCalls_append, appendCalls, List.append_nil]
          rw [← h2]; simp only [FetcherPC.owedEnvs, hrd, Multiset.coe_singleton]
        · simpa [appendCalls_append, appendCalls] using h3
    · rename_i helig
      have hel : eligible [sid] = [] := by simp [eligible, helig]
      have hrd : readable u [sid] = [] := by simp [readable, hel]
      simp only [Option.some.injEq] at hs
      subst hs
      refine ⟨?_, ?_, h3⟩
      · simp only [e1']
        rw [← h1]; simp only [FetcherPC.owedIDs, hel, Multiset.coe_nil]
      · simp only [e2']
        rw [← h2]; simp only [FetcherPC.owedEnvs, hrd, Multiset.coe_nil]
  · rename_i b hi
    obtain ⟨R1, e1, e1'⟩ := sum_map_set FetcherPC.owedIDs hi
    obtain ⟨R2, e2, e2'⟩ := sum_map_set (FetcherPC.owedEnvs u) hi
    rw [e1] at h1
    rw [e2] at h2
    split at hs
    · rename_i hcl
      have := hc.getters_done (by have := hc.env_closed.mp hcl; omega) _ (List.getElem?_mem hi)
      simp at this
    · split at hs
      · simp only [Option.some.injEq] at hs
        subst hs
        refine ⟨?_, ?_, ?_⟩
        · simp only [e1', readCalls_append, readCalls, List.append_nil]
          rw [← h1]; simp only [FetcherPC.owedIDs]
        · simp only [e2', appendCalls_append, appendCalls, List.append_nil, ← Multiset.coe_add]
          rw [← h2]; simp only [FetcherPC.owedEnvs, Multiset.coe_singleton]; abel
        · simpa [appendCalls_append, appendCalls] using h3
      · simp at hs
  · simp at hs

theorem Ledger.ledger_appender {B F C : Type} (P : Prometheus B F C) (u : Upstream B)
    (ids : List String) {s t : State B C} (j : Nat) (h : Ledger P u ids s)
    (hs : stepAppender P s j = some t) : Ledger P u ids t := by
  obtain ⟨h1, h2, h3⟩ := h
  unfold stepAppender at hs
  split at hs
  · simp at hs
  · rename_i hj
    obtain ⟨R, e, e'⟩ := sum_map_set AppenderPC.owedEnvs hj
    rw [e] at h2
    split at hs
    · rename_i b rest hch
      simp only [Option.some.injEq] at hs
      subst hs
      refine ⟨h1, ?_, h3⟩
      simp only [e']
      rw [← h2, hch, ← Multiset.cons_coe, ← Multiset.singleton_add]; simp only [AppenderPC.owedEnvs]; abel
    · split at hs
      · simp only [Option.some.injEq] at hs
        subst hs
        refine ⟨h1, ?_, h3⟩
        simp only [e']
        rw [← h2]; simp only [AppenderPC.owedEnvs]
      · simp at hs
  · rename_i b hj
    obtain ⟨R, e, e'⟩ := sum_map_set AppenderPC.owedEnvs hj
    rw [e] at h2
    simp only [Option.some.injEq] at hs
    subst hs
    refine ⟨?_, ?_, ?_⟩
    · simpa [readCalls_append, readCalls] using h1
    · simp only [e', appendCalls_append, appendCalls, ← Multiset.coe_add]
      rw [← h2]; simp only [AppenderPC.owedEnvs, Multiset.coe_singleton]; abel
    · simp only [appendCalls_append, appendCalls, appended_snoc, ← h3]
  · rename_i e0 hj
    obtain ⟨R, e, e'⟩ := sum_map_set AppenderPC.owedEnvs hj
    rw [e] at h2
    simp only [Option.some.injEq] at hs
    subst hs
    refine ⟨h1, ?_, h3⟩
    simp only [e']
    rw [← h2]; simp only [AppenderPC.owedEnvs]
  · rename_i hj
    obtain ⟨R, e, e'⟩ := sum_map_set AppenderPC.owedEnvs hj
    rw [e] at h2
    split at hs
    · simp only [Option.some.injEq] at hs
      subst hs
      refine ⟨?_, ?_, ?_⟩
      · simpa [readCalls_append, readCalls] using h1
      · simp only [e', appendCalls_append, appendCalls, List.append_nil]
        rw [← h2]; simp only [AppenderPC.owedEnvs]
      · simpa [appendCalls_append, appendCalls] using h3
    · simp only [Option.some.injEq] at hs
      subst hs
      refine ⟨h1, ?_, h3⟩
      simp only [e']
      rw [← h2]; simp only [AppenderPC.owedEnvs]
  · rename_i hj
    obtain ⟨R, e, e'⟩ := sum_map_set AppenderPC.owedEnvs hj
    rw [e] at h2
    simp only [Option.some.injEq] at hs
    subst hs
    refine ⟨?_, ?_, ?_⟩
    · simpa [readCalls_append, readCalls] using h1
    · simp only [e', appendCalls_append, appendCalls, List.append_nil]
      rw [← h2]; simp only [AppenderPC.owedEnvs]
    · simpa [appendCalls_append, appendCalls] using h3
  · simp at hs

theorem Ledger.ledger_step {B F C : Type} (P : Prometheus B F C) (u : Upstream B)
    (ids : List String) {s t : State B C} (a : Action) (hc : Control u s)
    (h : Ledger P u ids s) (hs : step P u s a = some t) : Ledger P u ids t := by
  cases a with
  | main => exact Ledger.ledger_main P u ids hc h hs
  | fetcher i => exact Ledger.ledger_fetcher P u ids i hc h hs
  | appender j => exact Ledger.ledger_appender P u ids j h hs

/-! ### Response invariant -/

theorem Responded.responded_main {B F C : Type} (P : Prometheus B F C) (u : Upstream B)
    {s t : State B C} (hc : Control u s) (h : Responded s)
    (hs : stepMain P u s = some t) : Responded t := by
  obtain ⟨h1, h2, h3, ⟨mid, hm1, hm2, hm3⟩, h5⟩ := h
  unfold stepMain at hs
  split at hs
  · rename_i hm; have := hc.phase_pos; simp [hm] at this
  · rename_i hm
    simp only [Option.some.injEq] at hs
    subst hs
    simp only [hm, MainPC.phase_feed] at hm3
    refine ⟨?_, ?_, ?_, ⟨mid, hm1, ?_, ?_⟩, ?_⟩
    · simpa [appendFailed_append, appendFailed] using h1
    · simpa [appendFailed_append, appendFailed] using h2
    · simpa [appendFailed_append, appendFailed] using h3
    · simpa [appendFailed_append, appendFailed] using hm2
    · simpa [respCalls_append, respCalls] using hm3
    · simp
  · simp at hs
  · rename_i hm
    split at hs
    · simp only [Option.some.injEq] at hs
      subst hs
      simp only [hm, MainPC.phase_waitGetters] at hm3
      refine ⟨h1, h2, h3, ⟨mid, hm1, hm2, ?_⟩, ?_⟩
      · simpa using hm3
      · simp
    · simp at hs
  · rename_i hm
    simp only [Option.some.injEq] at hs
    subst hs
    simp only [hm, MainPC.phase_closeEnv] at hm3
    refine ⟨?_, ?_, ?_, ⟨mid, hm1, ?_, ?_⟩, ?_⟩
    · simpa [appendFailed_append, appendFailed] using h1
    · simpa [appendFailed_append, appendFailed] using h2
    · simpa [appendFailed_append, appendFailed] using h3
    · simpa [appendFailed_append, appendFailed] using hm2
    · simpa [respCalls_append, respCalls] using hm3
    · simp
  · rename_i hm
    split at hs
    · simp only [Option.some.injEq] at hs
      subst hs
      simp only [hm, MainPC.phase_waitAppender] at hm3
      refine ⟨h1, h2, h3, ⟨mid, hm1, hm2, ?_⟩, ?_⟩
      · simpa using hm3
      · simp
    · simp at hs
  · rename_i hm
    simp only [Option.some.injEq] at hs
    subst hs
    simp only [hm, MainPC.phase_write] at hm3
    refine ⟨?_, ?_, ?_, ⟨mid, hm1, ?_, ?_⟩, ?_⟩
    · simpa [appendFailed_append, appendFailed] using h1
    · simpa [appendFailed_append, appendFailed] using h2
    · simpa [appendFailed_append, appendFailed] using h3
    · simpa [appendFailed_append, appendFailed] using hm2
    · simp only [respCalls_append, respCalls, MainPC.phase_done, if_true]
      rw [hm3]; simp
    · intro _; exact ⟨s.trace, rfl⟩
  · simp at hs

theorem Responded.frame {B C : Type} {s t : State B C} (h : Responded s)
    (hphase : t.main.phase = s.main.phase) (hlt : s.main.phase < 5)
    (herr : t.err = s.err) (happ : t.appender = s.appender)
    (htr : t.trace = s.trace ∨ ∃ e, t.trace = s.trace ++ [e] ∧ respCalls [e] = []) :
    Responded t := by
  obtain ⟨h1, h2, h3, ⟨mid, hm1, hm2, hm3⟩, h5⟩ := h
  have hf : appendFailed s.trace = true → appendFailed t.trace = true := by
    intro hh
    rcases htr with e | ⟨e, he, _⟩
    · rw [e]; exact hh
    · rw [he, appendFailed_append, hh]; rfl
  have hr : respCalls t.trace = respCalls s.trace := by
    rcases htr with e | ⟨e, he, hn⟩
    · rw [e]
    · rw [he, respCalls_append, hn, List.append_nil]
  have h6 : ¬ s.main.phase = 6 := by omega
  refine ⟨?_, ?_, ?_, ⟨mid, hm1, fun hh => hf (hm2 hh), ?_⟩, ?_⟩
  · rw [herr]; exact fun hh => hf (h1 hh)
  · rw [happ]; exact fun hh => hf (h2 hh)
  · rw [happ]; exact fun hh => hf (h3 hh)
  · rw [hr, hm3, hphase, if_neg h6, if_neg h6]
  · rw [hphase]; intro hh; exact absurd hh h6

theorem Control.fetcher_phase {B C : Type} {u : Upstream B} {s : State B C}
    (h : Control u s) {i : Nat} {y : FetcherPC B}
    (hi : s.logGetters[i]? = some y) (hy : y ≠ FetcherPC.done) : s.main.phase < 3 := by
  by_contra hc
  exact hy (h.getters_done (by omega) y (List.getElem?_mem hi))

theorem Control.appender_phase {B C : Type} {u : Upstream B} {s : State B C}
    (h : Control u s) {j : Nat} {y : AppenderPC B}
    (hj : s.appender[j]? = some y) (hy : y ≠ AppenderPC.done) : s.main.phase < 5 := by
  by_contra hc
  exact hy (h.appender_done (by omega) y (List.getElem?_mem hj))

theorem Responded.responded_fetcher {B C : Type} (u : Upstream B)
    {s t : State B C} (i : Nat) (hc : Control u s) (h : Responded s)
    (hs : stepFetcher u s i = some t) : Responded t := by
  unfold stepFetcher at hs
  split at hs
  · simp at hs
  · rename_i hi
    have hlt := hc.fetcher_phase hi (by simp)
    split at hs
    · simp only [Option.some.injEq] at hs
      subst hs
      exact h.frame rfl (by omega) rfl rfl (Or.inl rfl)
    · split at hs
      · rename_i hm
        simp only [Option.some.injEq] at hs
        subst hs
        exact h.frame (by simp [hm]) (by omega) rfl rfl (Or.inl rfl)
      · simp at hs
  · rename_i sid hi
    have hlt := hc.fetcher_phase hi (by simp)
    split at hs
    · split at hs
      · simp only [Option.some.injEq] at hs
        subst hs
        exact h.frame rfl (by omega) rfl rfl (Or.inr ⟨_, rfl, rfl⟩)
      · simp only [Option.some.injEq] at hs
        subst hs
        exact h.frame rfl (by omega) rfl rfl (Or.inr ⟨_, rfl, rfl⟩)
    · simp only [Option.some.injEq] at hs
      subst hs
      exact h.frame rfl (by omega) rfl rfl (Or.inl rfl)
  · rename_i b hi
    have hlt := hc.fetcher_phase hi (by simp)
    split at hs
    · rename_i hcl
      have := hc.env_closed.mp hcl
      omega
    · split at hs
      · simp only [Option.some.injEq] at hs
        subst hs
        exact h.frame rfl (by omega) rfl rfl (Or.inr ⟨_, rfl, rfl⟩)
      · simp at hs
  · simp at hs
theorem Responded.update {B C : Type} {s t : State B C} (h : Responded s)
    (hphase : t.main.phase = s.main.phase) (hlt : s.main.phase < 5)
    (evs : List (Event B C)) (htr : t.trace = s.trace ++ evs)
    (hresp : ∀ c ∈ respCalls evs,
      c = RespCall.writeHeader 500 ∨ c = RespCall.write appendErrorMessage)
    (hsrc : respCalls evs ≠ [] → appendFailed t.trace = true)
    (herr : t.err = true → appendFailed t.trace = true)
    (hassign : AppenderPC.assign true ∈ t.appender → appendFailed t.trace = true)
    (hbody : AppenderPC.errBody ∈ t.appender → appendFailed t.trace = true) :
    Responded t := by
  obtain ⟨_, _, _, ⟨mid, hm1, hm2, hm3⟩, _⟩ := h
  have h6 : ¬ s.main.phase = 6 := by omega
  refine ⟨herr, hassign, hbody, ⟨mid ++ respCalls evs, ?_, ?_, ?_⟩, ?_⟩
  · intro c hcm
    rcases List.mem_append.mp hcm with hc1 | hc1
    · exact hm1 c hc1
    · exact hresp c hc1
  · intro hne
    by_cases hr : respCalls evs = []
    · rw [hr, List.append_nil] at hne
      rw [htr, appendFailed_append, hm2 hne]; rfl
    · exact hsrc hr
  · rw [htr, respCalls_append, hm3, hphase, if_neg h6, if_neg h6]
    simp
  · rw [hphase]; intro hh; exact absurd hh h6

theorem appendFailed_mono {B C : Type} {a : List (Event B C)} (b : List (Event B C))
    (h : appendFailed a = true) : appendFailed (a ++ b) = true := by
  rw [appendFailed_append, h]; rfl

theorem Responded.responded_appender {B F C : Type} (P : Prometheus B F C) (u : Upstream B)
    {s t : State B C} (j : Nat) (hc : Control u s) (h : Responded s)
    (hs : stepAppender P s j = some t) : Responded t := by
  unfold stepAppender at hs
  split at hs
  · simp at hs
  · rename_i hj
    have hlt := hc.appender_phase hj (by simp)
    split at hs
    · simp only [Option.some.injEq] at hs
      subst hs
      refine h.update rfl hlt [] (by simp) (by simp [respCalls]) (by simp [respCalls])
        (by simpa using h.err_src) ?_ ?_
      · intro hm
        rcases mem_set_of_getElem? hj hm with h1 | h1
        · cases h1
        · simpa using h.assign_src h1
      · intro hm
        rcases mem_set_of_getElem? hj hm with h1 | h1
        · cases h1
        · simpa using h.body_src h1
    · split at hs
      · simp only [Option.some.injEq] at hs
        subst hs
        refine h.update rfl hlt [] (by simp) (by simp [respCalls]) (by simp [respCalls])
          (by simpa using h.err_src) ?_ ?_
        · intro hm
          rcases mem_set_of_getElem? hj hm with h1 | h1
          · cases h1
          · simpa using h.assign_src h1
        · intro hm
          rcases mem_set_of_getElem? hj hm with h1 | h1
          · cases h1
          · simpa using h.body_src h1
      · simp at hs
  · rename_i b hj
    have hlt := hc.appender_phase hj (by simp)
    simp only [Option.some.injEq] at hs
    subst hs
    refine h.update rfl hlt _ rfl (by simp [respCalls]) (by simp [respCalls])
      (fun he => appendFailed_mono _ (h.err_src he)) ?_ ?_
    · intro hm
      rcases mem_set_of_getElem? hj hm with h1 | h1
      · simp only [AppenderPC.assign.injEq] at h1
        simp [appendFailed_append, appendFailed, ← h1]
      · exact appendFailed_mono _ (h.assign_src h1)
    · intro hm
      rcases mem_set_of_getElem? hj hm with h1 | h1
      · cases h1
      · exact appendFailed_mono _ (h.body_src h1)
  · rename_i e hj
    have hlt := hc.appender_phase hj (by simp)
    simp only [Option.some.injEq] at hs
    subst hs
    refine h.update rfl hlt [] (by simp) (by simp [respCalls]) (by simp [respCalls]) ?_ ?_ ?_
    · intro he
      simp only at he
      subst he
      simpa using h.assign_src (List.getElem?_mem hj)
    · intro hm
      rcases mem_set_of_getElem? hj hm with h1 | h1
      · cases h1
      · simpa using h.assign_src h1
    · intro hm
      rcases mem_set_of_getElem? hj hm with h1 | h1
      · cases h1
      · simpa using h.body_src h1
  · rename_i hj
    have hlt := hc.appender_phase hj (by simp)
    split at hs
    · rename_i herr
      simp only [Option.some.injEq] at hs
      subst hs
      have hf := appendFailed_mono [Event.resp (RespCall.writeHeader 500)] (h.err_src herr)
      exact h.update rfl hlt _ rfl (by simp [respCalls]) (fun _ => hf) (fun _ => hf)
        (fun _ => hf) (fun _ => hf)
    · simp only [Option.some.injEq] at hs
      subst hs
      refine h.update rfl hlt [] (by simp) (by simp [respCalls]) (by simp [respCalls])
        (by simpa using h.err_src) ?_ ?_
      · intro hm
        rcases mem_set_of_getElem? hj hm with h1 | h1
        · cases h1
        · simpa using h.assign_src h1
      · intro hm
        rcases mem_set_of_getElem? hj hm with h1 | h1
        · cases h1
        · simpa using h.body_src h1
  · rename_i hj
    have hlt := hc.appender_phase hj (by simp)
    simp only [Option.some.injEq] at hs
    subst hs
    have hf := appendFailed_mono [Event.resp (RespCall.write appendErrorMessage)]
      (h.body_src (List.getElem?_mem hj))
    exact h.update rfl hlt _ rfl (by simp [respCalls]) (fun _ => hf) (fun _ => hf)
      (fun _ => hf) (fun _ => hf)
  · simp at hs

theorem Responded.responded_step {B F C : Type} (P : Prometheus B F C) (u : Upstream B)
    {s t : State B C} (a : Action) (hc : Control u s)
    (h : Responded s) (hs : step P u s a = some t) : Responded t := by
  cases a with
  | main => exact Responded.responded_main P u hc h hs
  | fetcher i => exact Responded.responded_fetcher u i hc h hs
  | appender j => exact Responded.responded_appender P u j hc h hs

/-! ### Reachable states -/

theorem Invariant.invariant_step {B F C : Type} {P : Prometheus B F C} {u : Upstream B}
    {ids : List String} {s t : State B C} (a : Action) (h : Invariant P u ids s)
    (hs : step P u s a = some t) : Invariant P u ids t :=
  ⟨h.control.control_step P u a hs, h.ledger.ledger_step P u ids a h.control hs,
    h.responded.responded_step P u a h.control hs⟩

theorem Invariant.run_preserves {B F C : Type} {P : Prometheus B F C} {u : Upstream B}
    {ids : List String} (schedule : List Action) {s t : State B C} (h : Invariant P u ids s)
    (hs : run P u s schedule = some t) : Invariant P u ids t := by
  induction schedule generalizing s with
  | nil =>
    simp only [LogCacheAdapter.run, Option.some.injEq] at hs
    exact hs ▸ h
  | cons a rest ih =>
    simp only [LogCacheAdapter.run] at hs
    split at hs
    · simp at hs
    · rename_i s1 h1
      exact ih (h.invariant_step a h1) hs

theorem sum_replicate_zero {α M : Type} [AddCommMonoid M] (g : α → M) (x : α) (n : Nat)
    (h : g x = 0) : ((List.replicate n x).map g).sum = 0 := by
  induction n with
  | zero => rfl
  | succ n ih => simp [List.replicate_succ, h, ih]

theorem Invariant.start {B F C : Type} {P : Prometheus B F C} {u : Upstream B}
    {ids : List String} {t : State B C} (hm : u.Meta = some ids)
    (hs : stepMain P u (State.init P) = some t) : Invariant P u ids t := by
  simp only [stepMain, State.init, hm, Option.some.injEq] at hs
  subst hs
  refine ⟨⟨?_, ?_, ?_, ?_, ?_, ?_, ?_, ?_, ?_, ?_, ?_⟩, ⟨?_, ?_, ?_⟩, ⟨?_, ?_, ?_, ?_, ?_⟩⟩
  all_goals simp only [MainPC.phase_feed, List.length_replicate, MainPC.rest]
  · omega
  · simp
  · simp
  · simp
  · simp
  · intro hh
    have := List.eq_of_mem_replicate hh
    cases this
  · intro hh
    have := List.eq_of_mem_replicate hh
    cases this
  · simp
  · rw [sum_replicate_zero FetcherPC.owedIDs FetcherPC.recv 10 rfl]
    simp [readCalls]
  · rw [sum_replicate_zero AppenderPC.owedEnvs AppenderPC.recv _ rfl,
      sum_replicate_zero (FetcherPC.owedEnvs u) FetcherPC.recv 10 rfl]
    simp [appendCalls]
  · simp [appendCalls, appended]
  · simp
  · intro hh
    have := List.eq_of_mem_replicate hh
    cases this
  · intro hh
    have := List.eq_of_mem_replicate hh
    cases this
  · exact ⟨[], by simp, by simp, by simp [respCalls]⟩
  · simp

theorem run_of_blocked {B F C : Type} (P : Prometheus B F C) (u : Upstream B) (s : State B C)
    (hb : ∀ a, step P u s a = none) (schedule : List Action) {t : State B C}
    (hs : run P u s schedule = some t) : t = s := by
  cases schedule with
  | nil => simpa [LogCacheAdapter.run] using hs.symm
  | cons a rest => simp [LogCacheAdapter.run, hb a] at hs

theorem step_init {B F C : Type} (P : Prometheus B F C) (u : Upstream B) (a : Action)
    {t : State B C} (hs : step P u (State.init P) a = some t) :
    a = Action.main ∧ stepMain P u (State.init P) = some t := by
  cases a with
  | main => exact ⟨rfl, hs⟩
  | fetcher i => simp [step, stepFetcher, State.init] at hs
  | appender j => simp [step, stepAppender, State.init] at hs

/-- Every state a request reaches is the initial one, the one after a failed `Meta`, or
one satisfying the invariant for the identifiers `Meta` returned. -/
theorem handleMetrics_reach {B F C : Type} (P : Prometheus B F C) (u : Upstream B)
    (schedule : List Action) {s : State B C} (hs : handleMetrics P u schedule = some s) :
    s = State.init P ∨ (u.Meta = none ∧ s = State.metaFailed P) ∨
      ∃ ids, u.Meta = some ids ∧ Invariant P u ids s := by
  unfold handleMetrics at hs
  cases schedule with
  | nil =>
    left
    simpa [LogCacheAdapter.run] using hs.symm
  | cons a rest =>
    right
    simp only [LogCacheAdapter.run] at hs
    split at hs
    · simp at hs
    · rename_i s1 h1
      obtain ⟨_, h1⟩ := step_init P u a h1
      cases hm : u.Meta with
      | none =>
        left
        refine ⟨rfl, ?_⟩
        have e1 : s1 = State.metaFailed P := by
          simp only [stepMain, State.init, hm, Option.some.injEq] at h1
          rw [← h1]; rfl
        subst e1
        refine run_of_blocked P u _ (fun a => ?_) rest hs
        cases a <;> simp [step, stepMain, stepFetcher, stepAppender, State.metaFailed, State.init]
      | some ids =>
        right
        exact ⟨ids, rfl, (Invariant.start hm h1).run_preserves rest hs⟩

/-! ### Termination and progress -/

theorem sum_map_replicate_nat {α : Type} (g : α → Nat) (x : α) (n : Nat) :
    ((List.replicate n x).map g).sum = n * g x := by
  induction n with
  | zero => simp
  | succ n ih => simp [List.replicate_succ, ih, Nat.succ_mul, Nat.add_comm]

theorem stepMain_fuel {B F C : Type} (P : Prometheus B F C) (u : Upstream B)
    {s t : State B C} (hs : stepMain P u s = some t) : t.fuel u < s.fuel u := by
  unfold stepMain at hs
  split at hs
  · rename_i hm
    split at hs
    · rename_i hmeta
      simp only [Option.some.injEq] at hs
      subst hs
      simp only [State.fuel, hm, MainPC.fuel, hmeta]
      omega
    · rename_i ids hmeta
      simp only [Option.some.injEq] at hs
      subst hs
      simp only [State.fuel, hm, MainPC.fuel, hmeta, sum_map_replicate_nat, FetcherPC.fuel,
        AppenderPC.fuel, Option.getD_some]
      omega
  · rename_i hm
    simp only [Option.some.injEq] at hs
    subst hs
    simp only [State.fuel, hm, MainPC.fuel]
    omega
  · simp at hs
  · rename_i hm
    split at hs
    · simp only [Option.some.injEq] at hs
      subst hs
      simp only [State.fuel, hm, MainPC.fuel]
      omega
    · simp at hs
  · rename_i hm
    simp only [Option.some.injEq] at hs
    subst hs
    simp only [State.fuel, hm, MainPC.fuel]
    omega
  · rename_i hm
    split at hs
    · simp only [Option.some.injEq] at hs
      subst hs
      simp only [State.fuel, hm, MainPC.fuel]
      omega
    · simp at hs
  · rename_i hm
    simp only [Option.some.injEq] at hs
    subst hs
    simp only [State.fuel, hm, MainPC.fuel]
    omega
  · simp at hs

theorem stepFetcher_fuel {B C : Type} (u : Upstream B)
    {s t : State B C} (i : Nat) (hs : stepFetcher u s i = some t) : t.fuel u < s.fuel u := by
  unfold stepFetcher at hs
  split at hs
  · simp at hs
  · rename_i hi
    obtain ⟨R, e, e'⟩ := sum_map_set FetcherPC.fuel hi
    split at hs
    · simp only [Option.some.injEq] at hs
      subst hs
      simp only [State.fuel, e, e', FetcherPC.fuel]
      omega
    · split at hs
      · rename_i hm
        simp only [Option.some.injEq] at hs
        subst hs
        simp only [State.fuel, e, e', FetcherPC.fuel, hm, MainPC.fuel, List.length_cons]
        omega
      · simp at hs
  · rename_i sid hi
    obtain ⟨R, e, e'⟩ := sum_map_set FetcherPC.fuel hi
    split at hs
    · split at hs
      · simp only [Option.some.injEq] at hs
        subst hs
        simp only [State.fuel, e, e', FetcherPC.fuel]
        omega
      · simp only [Option.some.injEq] at hs
        subst hs
        simp only [State.fuel, e, e', FetcherPC.fuel]
        omega
    · simp only [Option.some.injEq] at hs
      subst hs
      simp only [State.fuel, e, e', FetcherPC.fuel]
      omega
  · rename_i b hi
    obtain ⟨R, e, e'⟩ := sum_map_set FetcherPC.fuel hi
    split at hs
    · simp only [Option.some.injEq] at hs
      subst hs
      simp only [State.fuel, e, e', FetcherPC.fuel]
      omega
    · split at hs
      · simp only [Option.some.injEq] at hs
        subst hs
        simp only [State.fuel, e, e', FetcherPC.fuel, List.length_append, List.length_singleton]
        omega
      · simp at hs
  · simp at hs

theorem stepAppender_fuel {B F C : Type} (P : Prometheus B F C) (u : Upstream B)
    {s t : State B C} (j : Nat) (hs : stepAppender P s j = some t) :
    t.fuel u < s.fuel u := by
  unfold stepAppender at hs
  split at hs
  · simp at hs
  · rename_i hj
    obtain ⟨R, e, e'⟩ := sum_map_set AppenderPC.fuel hj
    split at hs
    · rename_i b rest hch
      simp only [Option.some.injEq] at hs
      subst hs
      simp only [State.fuel, e, e', AppenderPC.fuel, hch, List.length_cons]
      omega
    · split at hs
      · simp only [Option.some.injEq] at hs
        subst hs
        simp only [State.fuel, e, e', AppenderPC.fuel]
        omega
      · simp at hs
  · rename_i b hj
    obtain ⟨R, e, e'⟩ := sum_map_set AppenderPC.fuel hj
    simp only [Option.some.injEq] at hs
    subst hs
    simp only [State.fuel, e, e', AppenderPC.fuel]
    omega
  · rename_i e0 hj
    obtain ⟨R, e, e'⟩ := sum_map_set AppenderPC.fuel hj
    simp only [Option.some.injEq] at hs
    subst hs
    simp only [State.fuel, e, e', AppenderPC.fuel]
    omega
  · rename_i hj
    obtain ⟨R, e, e'⟩ := sum_map_set AppenderPC.fuel hj
    split at hs
    · simp only [Option.some.injEq] at hs
      subst hs
      simp only [State.fuel, e, e', AppenderPC.fuel]
      omega
    · simp only [Option.some.injEq] at hs
      subst hs
      simp only [State.fuel, e, e', AppenderPC.fuel]
      omega
  · rename_i hj
    obtain ⟨R, e, e'⟩ := sum_map_set AppenderPC.fuel hj
    simp only [Option.some.injEq] at hs
    subst hs
    simp only [State.fuel, e, e', AppenderPC.fuel]
    omega
  · simp at hs

/-- Every step uses up fuel: no schedule runs forever. -/
theorem step_fuel {B F C : Type} (P : Prometheus B F C) (u : Upstream B)
    {s t : State B C} (a : Action) (hs : step P u s a = some t) : t.fuel u < s.fuel u := by
  cases a with
  | main => exact stepMain_fuel P u hs
  | fetcher i => exact stepFetcher_fuel u i hs
  | appender j => exact stepAppender_fuel P u j hs

theorem run_fuel {B F C : Type} (P : Prometheus B F C) (u : Upstream B)
    (schedule : List Action) {s t : State B C} (hs : run P u s schedule = some t) :
    schedule.length + t.fuel u ≤ s.fuel u := by
  induction schedule generalizing s with
  | nil =>
    simp only [LogCacheAdapter.run, Option.some.injEq] at hs
    subst hs; simp
  | cons a rest ih =>
    simp only [LogCacheAdapter.run] at hs
    split at hs
    · simp at hs
    · rename_i s1 h1
      have := ih hs
      have := step_fuel P u a h1
      simp only [List.length_cons]
      omega

theorem appender_progress {B F C : Type} (P : Prometheus B F C) {s : State B C} {j : Nat}
    {y : AppenderPC B} (hj : s.appender[j]? = some y) (hy : y ≠ AppenderPC.done)
    (hch : s.envelopeChan ≠ [] ∨ s.envelopeChanClosed = true) :
    ∃ t, stepAppender P s j = some t := by
  unfold stepAppender
  rw [hj]
  cases y with
  | recv =>
    cases hc : s.envelopeChan with
    | nil =>
      rcases hch with h | h
      · exact absurd hc h
      · simp [h]
    | cons b rest => simp
  | got b => simp
  | assign e => simp
  | check => by_cases he : s.err = true <;> simp [he]
  | errBody => simp
  | done => exact absurd rfl hy

theorem fetcher_progress {B F C : Type} (P : Prometheus B F C) {u : Upstream B}
    {s : State B C} (hc : Control u s) (hcpu : 1 ≤ u.numCPU) {i : Nat} {y : FetcherPC B}
    (hi : s.logGetters[i]? = some y) (hy : y ≠ FetcherPC.done)
    (hrecv : s.sourceIDsClosed = true ∨ ∃ sid rest, s.main = MainPC.feed (sid :: rest)) :
    ∃ a t, step P u s a = some t := by
  have hlt := hc.fetcher_phase hi hy
  have hopen : s.envelopeChanClosed = false := by
    cases h : s.envelopeChanClosed with
    | false => rfl
    | true => have := hc.env_closed.mp h; omega
  cases y with
  | recv =>
    refine ⟨Action.fetcher i, ?_⟩
    simp only [step, stepFetcher, hi]
    rcases hrecv with h | ⟨sid, rest, h⟩
    · simp [h]
    · by_cases h2 : s.sourceIDsClosed = true <;> simp [h, h2]
  | got sid =>
    refine ⟨Action.fetcher i, ?_⟩
    simp only [step, stepFetcher, hi]
    by_cases he : isTenantResourceSourceID sid = true
    · cases hr : u.Read sid <;> simp [he, hr]
    · simp [he]
  | send b =>
    by_cases hlen : s.envelopeChan.length < 10
    · refine ⟨Action.fetcher i, ?_⟩
      simp [step, stepFetcher, hi, hopen, hlen]
    · have h0 : 0 < s.appender.length := by rw [hc.appender_len]; omega
      have hj : s.appender[0]? = some s.appender[0] := List.getElem?_eq_getElem h0
      have hnd : s.appender[0] ≠ AppenderPC.done := by
        intro hd
        have := (hc.appender_exit (hd ▸ List.getElem_mem h0)).1
        omega
      have hne : s.envelopeChan ≠ [] := by
        intro hn; rw [hn] at hlen; simp at hlen
      obtain ⟨t, ht⟩ := appender_progress P hj hnd (Or.inl hne)
      exact ⟨Action.appender 0, t, ht⟩
  | done => exact absurd rfl hy

theorem exists_not_done {α : Type} (p : α → Bool) (l : List α) (h : l.all p = false) :
    ∃ (i : Nat) (y : α), l[i]? = some y ∧ p y = false := by
  obtain ⟨y, hy, hp⟩ : ∃ y ∈ l, p y = false := by
    simpa [List.all_eq_false] using h
  obtain ⟨i, hi⟩ := List.mem_iff_getElem?.mp hy
  exact ⟨i, y, hi, hp⟩

/-- No deadlock: until the handler has returned, some goroutine can take a step. -/
theorem progress {B F C : Type} (P : Prometheus B F C) {u : Upstream B} {s : State B C}
    (hc : Control u s) (hcpu : 1 ≤ u.numCPU) (hnd : s.main ≠ MainPC.done) :
    ∃ a t, step P u s a = some t := by
  cases hm : s.main with
  | start => have := hc.phase_pos; simp [hm] at this
  | feed rest =>
    cases rest with
    | nil => exact ⟨Action.main, by simp [step, stepMain, hm]⟩
    | cons sid rest =>
      have h0 : 0 < s.logGetters.length := by rw [hc.getters_len]; omega
      have hi : s.logGetters[0]? = some s.logGetters[0] := List.getElem?_eq_getElem h0
      have hy : s.logGetters[0] ≠ FetcherPC.done := by
        intro hd
        have := hc.getter_exit (hd ▸ List.getElem_mem h0)
        simp [hm] at this
      exact fetcher_progress P hc hcpu hi hy (Or.inr ⟨sid, rest, hm⟩)
  | waitGetters =>
    have hsrc : s.sourceIDsClosed = true := hc.src_closed.mpr (by simp [hm])
    cases hall : s.logGetters.all FetcherPC.isDone with
    | true => exact ⟨Action.main, by simp [step, stepMain, hm, hall]⟩
    | false =>
      obtain ⟨i, y, hi, hy⟩ := exists_not_done _ _ hall
      refine fetcher_progress P hc hcpu hi ?_ (Or.inl hsrc)
      intro hd; rw [hd] at hy; simp [FetcherPC.isDone] at hy
  | closeEnv => exact ⟨Action.main, by simp [step, stepMain, hm]⟩
  | waitAppender =>
    have hcl : s.envelopeChanClosed = true := hc.env_closed.mpr (by simp [hm])
    cases hall : s.appender.all AppenderPC.isDone with
    | true => exact ⟨Action.main, by simp [step, stepMain, hm, hall]⟩
    | false =>
      obtain ⟨j, y, hj, hy⟩ := exists_not_done _ _ hall
      have hyd : y ≠ AppenderPC.done := by
        intro hd; rw [hd] at hy; simp [AppenderPC.isDone] at hy
      obtain ⟨t, ht⟩ := appender_progress P hj hyd (Or.inr hcl)
      exact ⟨Action.appender j, t, ht⟩
  | write => exact ⟨Action.main, by simp [step, stepMain, hm]⟩
  | done => exact absurd hm hnd

/-- From any state of a request whose `Meta` call succeeded, some schedule reaches the
return of the handler: keep stepping a goroutine that can step until the fuel is used up. -/
theorem Invariant.completes {B F C : Type} {P : Prometheus B F C} {u : Upstream B}
    {ids : List String} (hcpu : 1 ≤ u.numCPU) (n : Nat) (s : State B C)
    (h : Invariant P u ids s) (hn : s.fuel u ≤ n) :
    ∃ schedule t, LogCacheAdapter.run P u s schedule = some t ∧ t.main = MainPC.done := by
  induction n generalizing s with
  | zero =>
    by_cases hd : s.main = MainPC.done
    · exact ⟨[], s, rfl, hd⟩
    · obtain ⟨a, t, ht⟩ := progress P h.control hcpu hd
      have := step_fuel P u a ht
      omega
  | succ n ih =>
    by_cases hd : s.main = MainPC.done
    · exact ⟨[], s, rfl, hd⟩
    · obtain ⟨a, t, ht⟩ := progress P h.control hcpu hd
      have hf := step_fuel P u a ht
      obtain ⟨sch, t2, h2, hd2⟩ := ih t (h.invariant_step a ht) (by omega)
      exact ⟨a :: sch, t2, by simp [LogCacheAdapter.run, ht, h2], hd2⟩

/-- The handler returns: from the initial state some schedule reaches its return, whatever
`Meta` answers, as long as there is at least one CPU. -/
theorem handleMetrics_returns {B F C : Type} (P : Prometheus B F C) (u : Upstream B)
    (hcpu : 1 ≤ u.numCPU) :
    ∃ schedule s, handleMetrics P u schedule = some s ∧ s.main = MainPC.done := by
  cases hm : u.Meta with
  | none =>
    refine ⟨[Action.main], State.metaFailed P, ?_, rfl⟩
    simp [handleMetrics, LogCacheAdapter.run, step, stepMain, State.init, hm, State.metaFailed]
  | some ids =>
    obtain ⟨s1, h1⟩ : ∃ s1, stepMain P u (State.init P) = some s1 := by
      simp [stepMain, State.init, hm]
    obtain ⟨sch, t, ht, hd⟩ := Invariant.completes hcpu _ _ (Invariant.start hm h1) (le_refl _)
    refine ⟨Action.main :: sch, t, ?_, hd⟩
    simp only [handleMetrics, LogCacheAdapter.run, step, h1]
    exact ht

/-! ### What a finished request has done -/

theorem sum_map_eq_zero {α M : Type} [AddCommMonoid M] (g : α → M) (l : List α)
    (h : ∀ x ∈ l, g x = 0) : (l.map g).sum = 0 := by
  induction l with
  | nil => rfl
  | cons a l ih =>
    simp only [List.map_cons, List.sum_cons, h a (List.mem_cons_self a l), zero_add]
    exact ih fun x hx => h x (List.mem_cons_of_mem a hx)

theorem Invariant.reads_subperm {B F C : Type} {P : Prometheus B F C} {u : Upstream B}
    {ids : List String} {s : State B C} (h : Invariant P u ids s) :
    (readCalls s.trace).Subperm (eligible ids) := by
  have h1 := h.ledger.ids_eq
  rw [← Multiset.coe_le, ← h1, add_assoc]
  exact Multiset.le_add_right _ _

theorem Invariant.appends_subperm {B F C : Type} {P : Prometheus B F C} {u : Upstream B}
    {ids : List String} {s : State B C} (h : Invariant P u ids s) :
    (appendCalls s.trace).Subperm (readable u ids) := by
  have h1 := h.ledger.envs_eq
  rw [← Multiset.coe_le, ← h1, add_assoc, add_assoc, add_assoc]
  exact Multiset.le_add_right _ _

theorem Invariant.reads_perm {B F C : Type} {P : Prometheus B F C} {u : Upstream B}
    {ids : List String} {s : State B C} (h : Invariant P u ids s)
    (hd : 3 ≤ s.main.phase) : (readCalls s.trace).Perm (eligible ids) := by
  have h1 := h.ledger.ids_eq
  have hz : (s.logGetters.map FetcherPC.owedIDs).sum = 0 :=
    sum_map_eq_zero _ _ fun f hf => by rw [h.control.getters_done hd f hf]; rfl
  rw [hz, MainPC.rest_eq_nil (by omega : 2 ≤ s.main.phase)] at h1
  simp only [eligible, List.filter_nil, Multiset.coe_nil, add_zero] at h1
  exact Multiset.coe_eq_coe.mp h1

theorem Invariant.appends_perm {B F C : Type} {P : Prometheus B F C} {u : Upstream B}
    {ids : List String} {s : State B C} (h : Invariant P u ids s) (hcpu : 1 ≤ u.numCPU)
    (hd : 5 ≤ s.main.phase) : (appendCalls s.trace).Perm (readable u ids) := by
  have h1 := h.ledger.envs_eq
  have hz : (s.logGetters.map (FetcherPC.owedEnvs u)).sum = 0 :=
    sum_map_eq_zero _ _ fun f hf => by
      rw [h.control.getters_done (by omega) f hf]; rfl
  have hza : (s.appender.map AppenderPC.owedEnvs).sum = 0 :=
    sum_map_eq_zero _ _ fun f hf => by rw [h.control.appender_done hd f hf]; rfl
  have h0 : 0 < s.appender.length := by rw [h.control.appender_len]; omega
  have hch : s.envelopeChan = [] :=
    (h.control.appender_exit
      (h.control.appender_done hd _ (List.getElem_mem h0) ▸ List.getElem_mem h0)).2
  rw [hz, hza, hch, MainPC.rest_eq_nil (by omega : 2 ≤ s.main.phase)] at h1
  simp only [readable, eligible, List.filter_nil, List.filterMap_nil, Multiset.coe_nil,
    add_zero] at h1
  exact Multiset.coe_eq_coe.mp h1

theorem Invariant.resp_done {B F C : Type} {P : Prometheus B F C} {u : Upstream B}
    {ids : List String} {s : State B C} (h : Invariant P u ids s)
    (hd : s.main = MainPC.done) :
    ∃ mid : List (RespCall C),
      (∀ c ∈ mid, c = RespCall.writeHeader 500 ∨ c = RespCall.write appendErrorMessage) ∧
      (mid ≠ [] → appendFailed s.trace = true) ∧
      respCalls s.trace = RespCall.headerAdd "Content-Type" "text/plain" :: mid ++
        [RespCall.metricsWrite s.metrics] := by
  obtain ⟨mid, h1, h2, h3⟩ := h.responded.shape
  refine ⟨mid, h1, h2, ?_⟩
  rw [h3, hd]; simp

theorem Invariant.resp_running {B F C : Type} {P : Prometheus B F C} {u : Upstream B}
    {ids : List String} {s : State B C} (h : Invariant P u ids s)
    (hd : s.main ≠ MainPC.done) (c : C) :
    RespCall.metricsWrite c ∉ respCalls s.trace := by
  obtain ⟨mid, h1, _, h3⟩ := h.responded.shape
  have h6 : ¬ s.main.phase = 6 := by
    cases hm : s.main <;> simp_all
  rw [h3, if_neg h6]
  intro hmem
  simp only [List.append_nil, List.mem_cons] at hmem
  rcases hmem with hh | hh
  · cases hh
  · rcases h1 _ hh with h | h <;> cases h

theorem handleMetrics_reach_some {B F C : Type} (P : Prometheus B F C) (u : Upstream B)
    {ids : List String} (hm : u.Meta = some ids) (schedule : List Action) {s : State B C}
    (hs : handleMetrics P u schedule = some s) :
    s = State.init P ∨ Invariant P u ids s := by
  rcases handleMetrics_reach P u schedule hs with h | ⟨h, _⟩ | ⟨ids2, h, hinv⟩
  · exact Or.inl h
  · rw [hm] at h; cases h
  · rw [hm] at h; cases h; exact Or.inr hinv

theorem appendFailed_of_appendCalls_nil {B C : Type} {tr : List (Event B C)}
    (h : appendCalls tr = []) : appendFailed tr = false := by
  induction tr with
  | nil => rfl
  | cons e tr ih => cases e <;> simp_all [appendCalls, appendFailed]

theorem step_closes {B F C : Type} (P : Prometheus B F C) (u : Upstream B) {s t : State B C}
    {a : Action} (hs : step P u s a = some t) (h0 : s.envelopeChanClosed = false)
    (h1 : t.envelopeChanClosed = true) :
    s.main = MainPC.closeEnv ∧ t.main = MainPC.waitAppender ∧
      t.logGetters = s.logGetters ∧ t.sourceIDsClosed = s.sourceIDsClosed := by
  cases a with
  | main =>
    simp only [step, stepMain] at hs
    split at hs
    · split at hs <;> (simp only [Option.some.injEq] at hs; subst hs; simp [h0] at h1)
    · simp only [Option.some.injEq] at hs; subst hs; simp [h0] at h1
    · simp at hs
    · split at hs
      · simp only [Option.some.injEq] at hs; subst hs; simp [h0] at h1
      · simp at hs
    · rename_i hm
      simp only [Option.some.injEq] at hs; subst hs
      exact ⟨hm, rfl, rfl, rfl⟩
    · split at hs
      · simp only [Option.some.injEq] at hs; subst hs; simp [h0] at h1
      · simp at hs
    · simp only [Option.some.injEq] at hs; subst hs; simp [h0] at h1
    · simp at hs
  | fetcher i =>
    simp only [step, stepFetcher] at hs
    split at hs
    · simp at hs
    · split at hs
      · simp only [Option.some.injEq] at hs; subst hs; simp [h0] at h1
      · split at hs
        · simp only [Option.some.injEq] at hs; subst hs; simp [h0] at h1
        · simp at hs
    · split at hs
      · split at hs <;> (simp only [Option.some.injEq] at hs; subst hs; simp [h0] at h1)
      · simp only [Option.some.injEq] at hs; subst hs; simp [h0] at h1
    · split at hs
      · simp only [Option.some.injEq] at hs; subst hs; simp [h0] at h1
      · split at hs
        · simp only [Option.some.injEq] at hs; subst hs; simp [h0] at h1
        · simp at hs
    · simp at hs
  | appender j =>
    simp only [step, stepAppender] at hs
    split at hs
    · simp at hs
    · split at hs
      · simp only [Option.some.injEq] at hs; subst hs; simp [h0] at h1
      · split at hs
        · simp only [Option.some.injEq] at hs; subst hs; simp [h0] at h1
        · simp at hs
    · simp only [Option.some.injEq] at hs; subst hs; simp [h0] at h1
    · simp only [Option.some.injEq] at hs; subst hs; simp [h0] at h1
    · split at hs <;> (simp only [Option.some.injEq] at hs; subst hs; simp [h0] at h1)
    · simp only [Option.some.injEq] at hs; subst hs; simp [h0] at h1
    · simp at hs

/-- No deadlock and no endless run: until the handler has returned some goroutine can take
a step, and a schedule is never longer than the fuel of the initial state. -/
theorem handleMetrics_live {B F C : Type} (P : Prometheus B F C) (u : Upstream B)
    (hcpu : 1 ≤ u.numCPU) (schedule : List Action) {s : State B C}
    (hs : handleMetrics P u schedule = some s) :
    (s.main ≠ MainPC.done → ∃ a t, step P u s a = some t) ∧
    schedule.length ≤ (State.init P).fuel u := by
  refine ⟨fun hnd => ?_, ?_⟩
  · rcases handleMetrics_reach P u schedule hs with h | ⟨_, h⟩ | ⟨ids, _, h⟩
    · subst h
      refine ⟨Action.main, ?_⟩
      cases hm : u.Meta <;> simp [step, stepMain, State.init, hm]
    · subst h
      exact absurd rfl hnd
    · exact progress P h.control hcpu hnd
  · have := run_fuel P u schedule hs
    omega

/-! ### The claims about the pipeline -/

/-- C8: when `Meta` returns `ids`, the `Read` calls of `handleMetrics` are, at every
moment, among the identifiers that satisfy `isTenantResourceSourceID`, each at most as
often as it was discovered, and once the handler has returned they are exactly those
identifiers, one call each; an identifier that fails the filter gets no `Read`, every batch
appended is the answer to the `Read` of an eligible identifier, and a 500 is written only
after a failed `Append`. Some schedule does reach the return. -/
theorem handleMetrics_reads_eligible {B F C : Type} (P : Prometheus B F C) (u : Upstream B)
    (ids : List String) (hcpu : 1 ≤ u.numCPU) (hm : u.Meta = some ids) :
    (∀ schedule s, handleMetrics P u schedule = some s →
      (readCalls s.trace).Subperm (ids.filter isTenantResourceSourceID) ∧
      (s.main = MainPC.done →
        (readCalls s.trace).Perm (ids.filter isTenantResourceSourceID)) ∧
      (∀ sourceID ∈ readCalls s.trace,
        sourceID ∈ ids ∧ isTenantResourceSourceID sourceID = true) ∧
      (ids.Nodup → (readCalls s.trace).Nodup) ∧
      (∀ b ∈ appendCalls s.trace, ∃ sourceID ∈ ids,
        isTenantResourceSourceID sourceID = true ∧ u.Read sourceID = some b) ∧
      (RespCall.writeHeader 500 ∈ respCalls s.trace → appendFailed s.trace = true)) ∧
    ∃ schedule s, handleMetrics P u schedule = some s ∧ s.main = MainPC.done := by
  refine ⟨fun schedule s hs => ?_, handleMetrics_returns P u hcpu⟩
  rcases handleMetrics_reach_some P u hm schedule hs with h | h
  · subst h
    simp [State.init, readCalls, appendCalls, respCalls]
  · have hsub := h.reads_subperm
    refine ⟨hsub, ?_, ?_, ?_, ?_, ?_⟩
    · intro hd
      exact h.reads_perm (by rw [hd]; simp)
    · intro sid hsid
      have := hsub.subset hsid
      simpa [eligible] using this
    · intro hnd
      obtain ⟨l, hl1, hl2⟩ := hsub
      exact hl1.nodup_iff.mp (List.Nodup.sublist hl2 (hnd.filter _))
    · intro b hb
      have := h.appends_subperm.subset hb
      simp only [readable, eligible, List.mem_filterMap, List.mem_filter] at this
      obtain ⟨sid, ⟨h1, h2⟩, h3⟩ := this
      exact ⟨sid, h1, h2, h3⟩
    · intro hmem
      obtain ⟨mid, h1, h2, h3⟩ := h.responded.shape
      apply h2
      intro hnil
      rw [h3, hnil] at hmem
      by_cases h6 : s.main.phase = 6 <;> simp [h6] at hmem

/-- C9: when `Meta` succeeds, once the handler has returned every batch a successful
`Read` returned has been converted and appended exactly once (the appended batches are a
permutation of the batches read), `metrics.Write` is the last event of the request, after
every `Append`, and the collection it serializes is the result of appending all those
batches; before the return nothing has been serialized, no batch is appended twice, and
whenever `Write` has been called every appender has exited and the channel is empty. Every
run gets there: until the return some goroutine can always step, no schedule is longer than
the fuel of the initial state, and some schedule does reach the return. -/
theorem handleMetrics_appends_all {B F C : Type} (P : Prometheus B F C) (u : Upstream B)
    (ids : List String) (hcpu : 1 ≤ u.numCPU) (hm : u.Meta = some ids) :
    (∀ schedule s, handleMetrics P u schedule = some s →
      (appendCalls s.trace).Subperm (readable u ids) ∧
      s.metrics = appended P (appendCalls s.trace) ∧
      (s.main ≠ MainPC.done → ∀ c, RespCall.metricsWrite c ∉ respCalls s.trace) ∧
      (s.main = MainPC.done →
        (appendCalls s.trace).Perm (readable u ids) ∧
        (∀ a ∈ s.appender, a = AppenderPC.done) ∧ s.envelopeChan = [] ∧
        ∃ tr, s.trace = tr ++ [Event.resp (RespCall.metricsWrite (appended P (appendCalls tr)))] ∧
          (appendCalls tr).Perm (readable u ids) ∧
          ∀ c, RespCall.metricsWrite c ∉ respCalls tr)) ∧
    (∀ schedule s, handleMetrics P u schedule = some s →
      (s.main ≠ MainPC.done → ∃ a t, step P u s a = some t) ∧
      schedule.length ≤ (State.init P).fuel u) ∧
    ∃ schedule s, handleMetrics P u schedule = some s ∧ s.main = MainPC.done := by
  refine ⟨fun schedule s hs => ?_, fun schedule s hs => handleMetrics_live P u hcpu schedule hs,
    handleMetrics_returns P u hcpu⟩
  rcases handleMetrics_reach_some P u hm schedule hs with h | h
  · subst h
    simp [State.init, appendCalls, respCalls, appended]
  · refine ⟨h.appends_subperm, h.ledger.metrics_eq, h.resp_running, ?_⟩
    intro hd
    have h5 : 5 ≤ s.main.phase := by rw [hd]; simp
    have hperm := h.appends_perm hcpu h5
    have hdone := h.control.appender_done h5
    have h0 : 0 < s.appender.length := by rw [h.control.appender_len]; omega
    have hch : s.envelopeChan = [] :=
      (h.control.appender_exit (hdone _ (List.getElem_mem h0) ▸ List.getElem_mem h0)).2
    refine ⟨hperm, hdone, hch, ?_⟩
    obtain ⟨tr, htr⟩ := h.responded.last (by rw [hd]; simp)
    obtain ⟨mid, h1, _, h3⟩ := h.resp_done hd
    have hacs : appendCalls s.trace = appendCalls tr := by
      rw [htr, appendCalls_append]; simp [appendCalls]
    refine ⟨tr, ?_, hacs ▸ hperm, ?_⟩
    · rw [← hacs, ← h.ledger.metrics_eq]; exact htr
    · intro c hc
      have h4 : respCalls tr ++ [RespCall.metricsWrite s.metrics] =
          (RespCall.headerAdd "Content-Type" "text/plain" :: mid) ++
            [RespCall.metricsWrite s.metrics] := by
        rw [← h3, htr, respCalls_append]; simp [respCalls]
      have h5 := List.append_cancel_right h4
      rw [h5] at hc
      simp only [List.mem_cons] at hc
      rcases hc with hh | hh
      · cases hh
      · rcases h1 _ hh with h | h <;> cases h
set_option maxRecDepth 1000000 in
/-- Witness of C8 on the request of `server_test.go`: both sources are eligible and the
test schedule reads each once. -/
theorem handleMetrics_reads_eligible_witness :
    1 ≤ testUpstream.numCPU ∧ testUpstream.Meta = some [sourceA, sourceB] ∧
    handleMetrics (prometheus testFormat) testUpstream testSchedule = some testFinal ∧
    testFinal.main = MainPC.done ∧
    (readCalls testFinal.trace).Perm ([sourceA, sourceB].filter isTenantResourceSourceID) :=
  ⟨by decide, rfl, rfl, rfl,
    ((handleMetrics_reads_eligible (prometheus testFormat) testUpstream [sourceA, sourceB]
      (by decide) rfl).1 testSchedule testFinal rfl).2.1 rfl⟩

set_option maxRecDepth 1000000 in
/-- Witness of C9 on the request of `server_test.go`: the test schedule appends both
batches and then serializes. -/
theorem handleMetrics_appends_all_witness :
    1 ≤ testUpstream.numCPU ∧ testUpstream.Meta = some [sourceA, sourceB] ∧
    handleMetrics (prometheus testFormat) testUpstream testSchedule = some testFinal ∧
    testFinal.main = MainPC.done ∧
    (appendCalls testFinal.trace).Perm (readable testUpstream [sourceA, sourceB]) :=
  ⟨by decide, rfl, rfl, rfl,
    (((handleMetrics_appends_all (prometheus testFormat) testUpstream [sourceA, sourceB]
      (by decide) rfl).1 testSchedule testFinal rfl).2.2.2 rfl).1⟩

/-- C2: when `Meta` returns `ids`, whichever eligible sources have a failing `Read`, once
the handler has returned the batches appended are exactly those of the eligible sources
whose `Read` succeeded (a permutation of them: a batch is appended if and only if it is
the answer to such a `Read`), the collection is the result of appending them, the
response ends with the metrics body, and it is exactly the `Content-Type` header and that
body, with status 200, unless an `Append` call returned an error: a failed `Read` writes
nothing to the response. Some schedule does reach the return. -/
theorem handleMetrics_read_errors_skipped {B F C : Type} (P : Prometheus B F C)
    (u : Upstream B) (ids : List String) (hcpu : 1 ≤ u.numCPU) (hm : u.Meta = some ids) :
    (∀ schedule s, handleMetrics P u schedule = some s →
      (∀ c ∈ respCalls s.trace,
        c = RespCall.writeHeader 500 ∨ c = RespCall.write appendErrorMessage →
          appendFailed s.trace = true) ∧
      (s.main = MainPC.done →
        (appendCalls s.trace).Perm ((ids.filter isTenantResourceSourceID).filterMap u.Read) ∧
        (∀ b, b ∈ appendCalls s.trace ↔
          ∃ sourceID ∈ ids, isTenantResourceSourceID sourceID = true ∧
            u.Read sourceID = some b) ∧
        s.metrics = appended P (appendCalls s.trace) ∧
        (∃ mid, respCalls s.trace = RespCall.headerAdd "Content-Type" "text/plain" :: mid ++
          [RespCall.metricsWrite s.metrics]) ∧
        (appendFailed s.trace = false →
          respCalls s.trace = [RespCall.headerAdd "Content-Type" "text/plain",
            RespCall.metricsWrite s.metrics] ∧
          respStatus (respCalls s.trace) = 200 ∧
          respBody P.Write (respCalls s.trace) = P.Write s.metrics))) ∧
    ∃ schedule s, handleMetrics P u schedule = some s ∧ s.main = MainPC.done := by
  refine ⟨fun schedule s hs => ?_, handleMetrics_returns P u hcpu⟩
  rcases handleMetrics_reach_some P u hm schedule hs with h | h
  · subst h
    simp [State.init, respCalls]
  · refine ⟨?_, fun hd => ?_⟩
    · intro c hc hce
      obtain ⟨mid, h1, h2, h3⟩ := h.responded.shape
      apply h2
      intro hnil
      rw [h3, hnil] at hc
      by_cases h6 : s.main.phase = 6 <;> simp [h6] at hc <;>
        rcases hce with e | e <;> rw [e] at hc <;> simp at hc
    · have h5 : 5 ≤ s.main.phase := by rw [hd]; simp
      have hperm := h.appends_perm hcpu h5
      obtain ⟨mid, h1, h2, h3⟩ := h.resp_done hd
      refine ⟨hperm, ?_, h.ledger.metrics_eq, ⟨mid, h3⟩, ?_⟩
      · intro b
        rw [hperm.mem_iff]
        simp only [readable, eligible, List.mem_filterMap, List.mem_filter]
        constructor
        · rintro ⟨sid, ⟨m1, m2⟩, m3⟩; exact ⟨sid, m1, m2, m3⟩
        · rintro ⟨sid, m1, m2, m3⟩; exact ⟨sid, ⟨m1, m2⟩, m3⟩
      · intro hnf
        have hmid : mid = [] := by
          by_contra hne
          rw [h2 hne] at hnf; cases hnf
        rw [h3, hmid]
        simp [respStatus, respBody]

set_option maxRecDepth 1000000 in
/-- Witness of C2: of the two sources of the test the `Read` of the second fails; the
batch of the first is the only one appended and the response is the header and the body. -/
theorem handleMetrics_read_errors_skipped_witness :
    1 ≤ halfUpstream.numCPU ∧ halfUpstream.Meta = some [sourceA, sourceB] ∧
    halfUpstream.Read sourceB = none ∧
    handleMetrics (prometheus testFormat) halfUpstream halfSchedule = some halfFinal ∧
    halfFinal.main = MainPC.done ∧
    (appendCalls halfFinal.trace).Perm
      (([sourceA, sourceB].filter isTenantResourceSourceID).filterMap halfUpstream.Read) :=
  ⟨by decide, rfl, rfl, rfl, rfl,
    (((handleMetrics_read_errors_skipped (prometheus testFormat) halfUpstream
      [sourceA, sourceB] (by decide) rfl).1 halfSchedule halfFinal rfl).2 rfl).1⟩

/-- C6: when `Meta` succeeds with an empty mapping, no `Read` and no `Append` call is ever
made and no error is reported, and once the handler has returned the response is the
`Content-Type: text/plain` header and the serialization of the untouched collection, with
status 200, which is the empty body when the package writes nothing for a collection with
no family. Some schedule does reach the return. -/
theorem handleMetrics_empty_meta {B F C : Type} (P : Prometheus B F C) (u : Upstream B)
    (hcpu : 1 ≤ u.numCPU) (hm : u.Meta = some [])
    (hw : P.Write P.CreateMetricsCollection = "") :
    (∀ schedule s, handleMetrics P u schedule = some s →
      readCalls s.trace = [] ∧ appendCalls s.trace = [] ∧ appendFailed s.trace = false ∧
      s.metrics = P.CreateMetricsCollection ∧
      (s.main = MainPC.done →
        respCalls s.trace = [RespCall.headerAdd "Content-Type" "text/plain",
          RespCall.metricsWrite P.CreateMetricsCollection] ∧
        respStatus (respCalls s.trace) = 200 ∧
        respHeader (respCalls s.trace) (fun _ => none) "Content-Type" = some ["text/plain"] ∧
        respBody P.Write (respCalls s.trace) = "")) ∧
    ∃ schedule s, handleMetrics P u schedule = some s ∧ s.main = MainPC.done := by
  refine ⟨fun schedule s hs => ?_, handleMetrics_returns P u hcpu⟩
  rcases handleMetrics_reach_some P u hm schedule hs with h | h
  · subst h
    simp [State.init, readCalls, appendCalls, appendFailed]
  · have hr : readCalls s.trace = [] := by
      have := h.reads_subperm
      simpa [eligible] using this
    have ha : appendCalls s.trace = [] := by
      have := h.appends_subperm
      simpa [readable, eligible] using this
    have hf := appendFailed_of_appendCalls_nil ha
    have hmet : s.metrics = P.CreateMetricsCollection := by
      rw [h.ledger.metrics_eq, ha]; rfl
    refine ⟨hr, ha, hf, hmet, fun hd => ?_⟩
    obtain ⟨mid, h1, h2, h3⟩ := h.resp_done hd
    have hmid : mid = [] := by
      by_contra hne
      rw [h2 hne] at hf; cases hf
    rw [h3, hmid, hmet]
    simp [respStatus, respBody, respHeader, Header.Add, hw]

set_option maxRecDepth 1000000 in
/-- Witness of C6 on the request of the test "should return nothing if there are no
metrics". -/
theorem handleMetrics_empty_meta_witness :
    1 ≤ emptyUpstream.numCPU ∧ emptyUpstream.Meta = some [] ∧
    (prometheus testFormat).Write (prometheus testFormat).CreateMetricsCollection = "" ∧
    handleMetrics (prometheus testFormat) emptyUpstream emptySchedule = some emptyFinal ∧
    emptyFinal.main = MainPC.done ∧
    respBody (prometheus testFormat).Write (respCalls emptyFinal.trace) = "" :=
  ⟨by decide, rfl, rfl, rfl, rfl,
    (((handleMetrics_empty_meta (prometheus testFormat) emptyUpstream (by decide) rfl rfl).1
      emptySchedule emptyFinal rfl).2.2.2.2 rfl).2.2.2⟩

/-- C10: in every state a request reaches, `envelopeChan` is closed only if `sourceIDs`
is closed and every fetcher has exited, and the step that closes it is taken by the handler
from such a state and leads it to `appender.Wait()`; a fetcher that holds a batch to send
finds the channel open, and no send on a closed channel has ever happened; and the handler
is at `appender.Wait()` or past it only with `envelopeChan` closed. -/
theorem handleMetrics_close_order {B F C : Type} (P : Prometheus B F C) (u : Upstream B)
    (schedule : List Action) (s : State B C) (hs : handleMetrics P u schedule = some s) :
    (s.envelopeChanClosed = true →
      s.sourceIDsClosed = true ∧ ∀ f ∈ s.logGetters, f = FetcherPC.done) ∧
    (∀ a t, step P u s a = some t → s.envelopeChanClosed = false →
      t.envelopeChanClosed = true →
        s.sourceIDsClosed = true ∧ (∀ f ∈ s.logGetters, f = FetcherPC.done) ∧
        s.main = MainPC.closeEnv ∧ t.main = MainPC.waitAppender) ∧
    (∀ f ∈ s.logGetters, ∀ b, f = FetcherPC.send b → s.envelopeChanClosed = false) ∧
    s.panicked = false ∧
    (s.main = MainPC.waitAppender ∨ s.main = MainPC.write → s.envelopeChanClosed = true) ∧
    (s.main = MainPC.done → u.Meta ≠ none → s.envelopeChanClosed = true) := by
  rcases handleMetrics_reach P u schedule hs with h | ⟨hm, h⟩ | ⟨ids, hm, h⟩
  · subst h
    refine ⟨by simp [State.init], fun a t ht h0 h1 => ?_, by simp [State.init],
      by simp [State.init], by simp [State.init], by simp [State.init]⟩
    have := (step_closes P u ht h0 h1).1
    simp [State.init] at this
  · subst h
    refine ⟨by simp [State.metaFailed, State.init], fun a t ht h0 h1 => ?_,
      by simp [State.metaFailed, State.init], by simp [State.metaFailed, State.init],
      by simp [State.metaFailed, State.init], by simp [State.metaFailed, State.init, hm]⟩
    have := (step_closes P u ht h0 h1).1
    simp [State.metaFailed, State.init] at this
  · have hc := h.control
    refine ⟨fun hcl => ?_, fun a t ht h0 h1 => ?_, fun f hf b hb => ?_, hc.no_panic,
      fun hw => ?_, fun hd _ => ?_⟩
    · have h4 := hc.env_closed.mp hcl
      exact ⟨hc.src_closed.mpr (by omega), hc.getters_done (by omega)⟩
    · obtain ⟨e1, e2, _, _⟩ := step_closes P u ht h0 h1
      have h3 : s.main.phase = 3 := by rw [e1]; rfl
      exact ⟨hc.src_closed.mpr (by omega), hc.getters_done (by omega), e1, e2⟩
    · cases hcl : s.envelopeChanClosed with
      | false => rfl
      | true =>
        have h4 := hc.env_closed.mp hcl
        have := hc.getters_done (by omega) f hf
        rw [hb] at this; cases this
    · apply hc.env_closed.mpr
      rcases hw with e | e <;> rw [e] <;> simp
    · apply hc.env_closed.mpr
      rw [hd]; simp

set_option maxRecDepth 1000000 in
/-- Witness of C10 on the request of `server_test.go`: at the end of the test schedule
both channels are closed and every fetcher has exited. -/
theorem handleMetrics_close_order_witness :
    handleMetrics (prometheus testFormat) testUpstream testSchedule = some testFinal ∧
    testFinal.envelopeChanClosed = true ∧ testFinal.sourceIDsClosed = true ∧
    testFinal.panicked = false :=
  ⟨rfl, rfl,
    ((handleMetrics_close_order (prometheus testFormat) testUpstream testSchedule testFinal
      rfl).1 rfl).1,
    (handleMetrics_close_order (prometheus testFormat) testUpstream testSchedule testFinal
      rfl).2.2.2.1⟩

/-- C3: when `Meta` returns an error, the handler writes the `Content-Type` header, the
status 500 and the message, and returns: the response has status 500 and the message as
its whole body, and in no state the request reaches has a `Read` or an `Append` been
called, a goroutine been started, the collection been changed or `metrics.Write` been
called. -/
theorem handleMetrics_meta_error {B F C : Type} (P : Prometheus B F C) (u : Upstream B)
    (hm : u.Meta = none) :
    (∀ schedule s, handleMetrics P u schedule = some s →
      readCalls s.trace = [] ∧ appendCalls s.trace = [] ∧
      s.logGetters = [] ∧ s.appender = [] ∧ s.envelopeChan = [] ∧
      s.metrics = P.CreateMetricsCollection ∧
      (∀ c, RespCall.metricsWrite c ∉ respCalls s.trace) ∧
      (s.main = MainPC.done →
        respCalls s.trace = [RespCall.headerAdd "Content-Type" "text/plain",
          RespCall.writeHeader 500, RespCall.write metaErrorMessage] ∧
        respStatus (respCalls s.trace) = 500 ∧
        respBody P.Write (respCalls s.trace) = "Cannot connect to log-cache")) ∧
    ∃ s, handleMetrics P u [Action.main] = some s ∧ s.main = MainPC.done := by
  constructor
  · intro schedule s hs
    rcases handleMetrics_reach P u schedule hs with h | ⟨_, h⟩ | ⟨ids, h, _⟩
    · subst h
      simp [State.init, readCalls, appendCalls, respCalls]
    · subst h
      simp [State.metaFailed, State.init, readCalls, appendCalls, respCalls, respStatus,
        respBody, metaErrorMessage]
    · rw [hm] at h; cases h
  · exact ⟨State.metaFailed P, by
      simp [handleMetrics, LogCacheAdapter.run, step, stepMain, State.init, hm,
        State.metaFailed], rfl⟩

/-- Witness of C3: the upstream is down, the response is the 500. -/
theorem handleMetrics_meta_error_witness :
    downUpstream.Meta = none ∧
    ∃ s, handleMetrics (prometheus testFormat) downUpstream [Action.main] = some s ∧
      s.main = MainPC.done :=
  ⟨rfl, (handleMetrics_meta_error (prometheus testFormat) downUpstream rfl).2⟩

set_option maxRecDepth 1000000 in
/-- C4 fails on the code: on the request of `server_test.go` with an `Append` that
returns an error, the handler writes the 500 response of `s.error` once per failed batch and
then, after the last of them, the metrics body as well; the response has status 500 and a
body made of two error messages followed by the exposition of the collection. -/
theorem handleMetrics_append_error_writes_both :
    (handleMetrics failingPrometheus testUpstream failingSchedule).map
        (fun s => (s.main, respCalls s.trace)) =
      some (MainPC.done,
        [RespCall.headerAdd "Content-Type" "text/plain",
         RespCall.writeHeader 500, RespCall.write appendErrorMessage,
         RespCall.writeHeader 500, RespCall.write appendErrorMessage,
         RespCall.metricsWrite (appended failingPrometheus [batchA, batchB])]) ∧
    (handleMetrics failingPrometheus testUpstream failingSchedule).map
        (fun s => (respStatus (respCalls s.trace),
          respBody failingPrometheus.Write (respCalls s.trace))) =
      some (500, appendErrorMessage ++ appendErrorMessage ++
        failingPrometheus.Write (appended failingPrometheus [batchA, batchB])) := by
  constructor <;> decide

/-- C7: the client `handleMetrics` builds carries the `Authorization` value of the
incoming request; a request passed to its `Do` goes out with `Authorization` bound to
exactly that value, whatever it held before, and with its method, URL and every other header
unchanged; the `Meta` call and every `Read` call go through it. -/
theorem myClient_Do_authorization {B R : Type} (u : Upstream B) (roundTrip : Request → R)
    (req : Request) :
    (∃ sent : Request, u.client.Do roundTrip req = roundTrip sent ∧
      sent.header "Authorization" = some [u.r.header.Get "Authorization"] ∧
      sent.header.Get "Authorization" = u.r.header.Get "Authorization" ∧
      sent.method = req.method ∧ sent.url = req.url ∧
      ∀ k, k ≠ "Authorization" → sent.header k = req.header k) ∧
    u.Meta = u.client.Do u.metaRoundTrip u.metaRequest ∧
    ∀ sourceID, u.Read sourceID = u.client.Do u.readRoundTrip (u.readRequest sourceID) := by
  refine ⟨⟨{ req with header := req.header.Set "Authorization" u.client.token }, rfl, ?_, ?_,
    rfl, rfl, ?_⟩, rfl, fun _ => rfl⟩
  · simp [Header.Set, Upstream.client]
  · simp [Header.Set, Header.Get, Upstream.client]
  · intro k hk
    simp [Header.Set, hk]

/-! ### The aggregate collection -/

set_option maxRecDepth 1000000 in
/-- The error of an `Append` can also be lost: the appenders share the variable `err`, and
with two of them a successful `Append` can overwrite the error of a failed one before it is
tested; the request then answers 200 with the metrics body although an `Append` failed. -/
theorem handleMetrics_append_error_lost :
    (handleMetrics pickyPrometheus twoCPUUpstream racingSchedule).map
        (fun s => (s.main, appendFailed s.trace, respStatus (respCalls s.trace),
          respCalls s.trace)) =
      some (MainPC.done, true, 200,
        [RespCall.headerAdd "Content-Type" "text/plain",
         RespCall.metricsWrite (appended pickyPrometheus [batchA, batchB])]) := by
  rfl

end LogCacheAdapter
